import Mathlib

/-!
Verification of the rust-rql-parser repository: a shallow embedding of
src/token.rs, src/lexer.rs, src/ast.rs and src/parser.rs, followed by
theorems about the claims of the specification.

Modelling conventions:
* Rust `String` input is modelled as `List Char`; the lexer's byte-position
  slicing (`&self.input[a..b]`) is modelled by collecting the characters that
  were consumed, which yields the same string contents.
* Rust `char` `'\u{0}'` (the lexer's end-of-input sentinel) is `'\x00'`.
* `i64` values are modelled as `Int` (comparison and equality on in-range
  values agree); `f64` values are modelled as exact rationals `Rat`: every
  claim proved below concerns only the order/equality structure of the float
  comparisons, which the rounding of decimal literals does not affect.
* `char::is_alphabetic` is modelled by `Char.isAlpha`; the two agree on all
  characters appearing in the concrete inputs below, and no theorem below
  depends on the extension of the letter class.
-/

namespace RQL

/-- Tokens of the query language, from src/token.rs. -/
inductive Token where
  | Illegal
  | Eof
  | Ident (s : String)
  | Int (s : String)
  | Float (s : String)
  | Str (s : String)
  | True
  | False
  | And
  | Or
  | Plus
  | Minus
  | Sort
  | Select
  | Values
  | Aggregate
  | Distinct
  | In
  | Out
  | Contains
  | Excludes
  | Limit
  | Eq
  | NotEq
  | Le
  | Ge
  | Lt
  | Gt
  | Comma
  | Lparen
  | Rparen
deriving DecidableEq

/-- src/token.rs `keyword_to_token`. -/
def keyword_to_token (keyword : String) : Option Token :=
  match keyword with
  | "true" => some .True
  | "false" => some .False
  | "eq" => some .Eq
  | "ne" => some .NotEq
  | "le" => some .Le
  | "ge" => some .Ge
  | "lt" => some .Lt
  | "gt" => some .Gt
  | "and" => some .And
  | "or" => some .Or
  | "sort" => some .Sort
  | "select" => some .Select
  | "values" => some .Values
  | "aggregate" => some .Aggregate
  | "distinct" => some .Distinct
  | "in" => some .In
  | "out" => some .Out
  | "contains" => some .Contains
  | "excludes" => some .Excludes
  | "limit" => some .Limit
  | _ => none

/-- src/token.rs `lookup_ident`. -/
def lookup_ident (ident : String) : Token :=
  (keyword_to_token ident).getD (.Ident ident)

/-- src/lexer.rs `is_letter`. -/
def is_letter (ch : Char) : Bool :=
  ch == '_' || ch == '.' || ch == '$' || ch.isAlpha

/-- src/lexer.rs `is_digit`. -/
def is_digit (ch : Char) : Bool :=
  '0' ≤ ch && ch ≤ '9'

/-- src/lexer.rs `is_whitespace`. -/
def is_whitespace (ch : Char) : Bool :=
  ch == ' ' || ch == '\t' || ch == '\n' || ch == '\r'

/-- The lexer state: the char currently under examination (`self.ch`, with
`'\x00'` standing for end-of-input) and the characters not yet pulled from
the iterator (`self.chars`). -/
structure Lexer where
  ch : Char
  rest : List Char
deriving DecidableEq

namespace Lexer

/-- src/lexer.rs `Lexer::read_char`: pull the next char, or the sentinel. -/
def read_char : Lexer → Lexer
  | ⟨_, []⟩ => ⟨'\x00', []⟩
  | ⟨_, c :: cs⟩ => ⟨c, cs⟩

/-- src/lexer.rs `Lexer::new`: start with the sentinel and read one char. -/
def new (input : List Char) : Lexer :=
  read_char ⟨'\x00', input⟩

/-- src/lexer.rs `Lexer::peek_char`. -/
def peek_char (l : Lexer) : Char :=
  l.rest.headD '\x00'

/-- src/lexer.rs `Lexer::skip_whitespace`, as a recursion on the pending
characters: advance while the current char is whitespace. -/
def skipWS (ch : Char) (rest : List Char) : Lexer :=
  if is_whitespace ch then
    match rest with
    | [] => ⟨'\x00', []⟩
    | c :: cs => skipWS c cs
  else ⟨ch, rest⟩

/-- Advance while `p` holds of the current char, returning the consumed
characters; this is the loop shared by `read_identifier` and `read_number`. -/
def readSeg (p : Char → Bool) (ch : Char) (rest : List Char) :
    List Char × Lexer :=
  if p ch then
    match rest with
    | [] => ([ch], ⟨'\x00', []⟩)
    | c :: cs =>
      let (s, l) := readSeg p c cs
      (ch :: s, l)
  else ([], ⟨ch, rest⟩)

/-- src/lexer.rs `Lexer::read_identifier`: one leading letter, then letters
and digits. -/
def read_identifier (ch : Char) (rest : List Char) : List Char × Lexer :=
  if is_letter ch then
    match rest with
    | [] => ([ch], ⟨'\x00', []⟩)
    | c :: cs =>
      let (s, l) := readSeg (fun c2 => is_letter c2 || is_digit c2) c cs
      (ch :: s, l)
  else readSeg (fun c2 => is_letter c2 || is_digit c2) ch rest

/-- src/lexer.rs `Lexer::read_number`. -/
def read_number (ch : Char) (rest : List Char) : List Char × Lexer :=
  readSeg is_digit ch rest

/-- src/lexer.rs `Lexer::read_string`: the loop reads a char first and stops
on a closing quote or the end-of-input sentinel; the characters in between
are the literal's text.  The state left behind has the terminator as the
current char. -/
def readStrAux : List Char → List Char × Lexer
  | [] => ([], ⟨'\x00', []⟩)
  | c :: cs =>
    if c == '"' || c == '\x00' then ([], ⟨c, cs⟩)
    else
      let (s, l) := readStrAux cs
      (c :: s, l)

/-- src/lexer.rs `Lexer::next_token`. -/
def next_token (l : Lexer) : Token × Lexer :=
  let l := skipWS l.ch l.rest
  if l.ch = '(' then (.Lparen, l.read_char)
  else if l.ch = ')' then (.Rparen, l.read_char)
  else if l.ch = ',' then (.Comma, l.read_char)
  else if l.ch = '+' then (.Plus, l.read_char)
  else if l.ch = '-' then (.Minus, l.read_char)
  else if l.ch = '"' then
    let (s, l1) := readStrAux l.rest
    (.Str (String.mk s), l1.read_char)
  else if l.ch = '\x00' then (.Eof, l.read_char)
  else if is_letter l.ch then
    let (s, l1) := read_identifier l.ch l.rest
    (lookup_ident (String.mk s), l1)
  else if is_digit l.ch then
    let (integer_part, l1) := read_number l.ch l.rest
    if l1.ch = '.' && is_digit l1.peek_char then
      let l2 := l1.read_char
      let (fractional_part, l3) := read_number l2.ch l2.rest
      (.Float (String.mk integer_part ++ "." ++ String.mk fractional_part), l3)
    else (.Int (String.mk integer_part), l1)
  else (.Illegal, l.read_char)

end Lexer

/-- The first `n` tokens produced by repeatedly calling `next_token`. -/
def lexTokens : Nat → Lexer → List Token
  | 0, _ => []
  | n + 1, l =>
    let (t, l1) := l.next_token
    t :: lexTokens n l1

example :
    lexTokens 7 (Lexer.new "eq(foo, 10)".toList) =
      [.Eq, .Lparen, .Ident "foo", .Comma, .Int "10", .Rparen, .Eof] := by
  decide

example :
    lexTokens 9 (Lexer.new "and(gt(bar.baz,60.5))".toList) =
      [.And, .Lparen, .Gt, .Lparen, .Ident "bar.baz", .Comma, .Float "60.5",
        .Rparen, .Rparen] := by
  decide

/-! ## The AST, from src/ast.rs

src/ast.rs declares `Query::And(Box<Query>, Box<Query>)`, but src/parser.rs
and its tests construct and pattern-match `Query::And(Vec<Query>)` (for
example `Ok(Query::And(queries))` with `queries: Vec<Query>`, and
`Query::And(vec![...])` in every parser test); the two files are therefore
inconsistent, and the list form actually built by the parser is modelled. -/

/-- `Prefix` from src/ast.rs (named `PrefixOp` here, since `prefix` is a
Lean keyword). -/
inductive PrefixOp where
  | Plus
  | Minus
deriving DecidableEq

/-- `Infix` from src/ast.rs (named `InfixOp` here, since `infix` is a Lean
keyword). -/
inductive InfixOp where
  | Eq
  | NotEq
  | Le
  | Ge
  | Lt
  | Gt
deriving DecidableEq

/-- `Value` from src/ast.rs.  `i64` is modelled as `Int` and `f64` as `Rat`
(see the header). -/
inductive Value where
  | Identifier (s : String)
  | IntegerLiteral (i : Int)
  | FloatLiteral (f : Rat)
  | StringLiteral (s : String)
  | Boolean (b : Bool)
deriving DecidableEq

/-- `Query` from src/ast.rs, with the `And`/`Or` child lists the parser
actually constructs. -/
inductive Query where
  | And (qs : List Query)
  | Or (qs : List Query)
  | Sort (p : PrefixOp) (v : Value)
  | Filter (op : InfixOp) (field : Value) (v : Value)
  | None

/-! ## The comparison scalar: a model of `serde_json::Value`

`Value::eq` and friends compare an AST value against a `serde_json::Value`.
Only the accessors `as_str` / `as_i64` / `as_f64` / `as_bool` are used:
* `as_str` is `Some` exactly on JSON strings;
* `as_bool` is `Some` exactly on JSON booleans;
* `as_i64` is `Some` exactly on integer-valued JSON numbers (a number that
  was parsed as a float yields `None`, even when its value is integral);
* `as_f64` is `Some` on every JSON number, converting integers to floats.
JSON numbers are modelled as either an `i64` integer or an `f64` float
(`u64`-only values are not modelled; no claim involves them). -/

/-- A JSON number: serde_json stores either an integer or a float. -/
inductive JNumber where
  | ofI64 (n : Int)
  | ofF64 (q : Rat)
deriving DecidableEq

/-- A model of `serde_json::Value`. -/
inductive JsonValue where
  | null
  | bool (b : Bool)
  | num (n : JNumber)
  | str (s : String)
  | arr (elts : List JsonValue)
  | obj (entries : List (String × JsonValue))

namespace JsonValue

/-- `serde_json::Value::as_str`. -/
def as_str : JsonValue → Option String
  | .str s => some s
  | _ => none

/-- `serde_json::Value::as_bool`. -/
def as_bool : JsonValue → Option Bool
  | .bool b => some b
  | _ => none

/-- `serde_json::Value::as_i64`: only integer-stored numbers. -/
def as_i64 : JsonValue → Option Int
  | .num (.ofI64 n) => some n
  | _ => none

/-- `serde_json::Value::as_f64`: any number, integers converted. -/
def as_f64 : JsonValue → Option Rat
  | .num (.ofI64 n) => some (n : Rat)
  | .num (.ofF64 q) => some q
  | _ => none

end JsonValue

namespace Value

/-- src/ast.rs `Value::eq`: each arm tests the matching accessor and
compares; every fall-through ends in `false`. -/
def eq (v : Value) (comparison : JsonValue) : Bool :=
  match v with
  | .StringLiteral s =>
    match comparison.as_str with
    | some v2 => v2 == s
    | none => false
  | .Identifier s =>
    match comparison.as_str with
    | some v2 => v2 == s
    | none => false
  | .IntegerLiteral i =>
    match comparison.as_i64 with
    | some v2 => v2 == i
    | none => false
  | .FloatLiteral i =>
    match comparison.as_f64 with
    | some v2 => v2 == i
    | none => false
  | .Boolean b =>
    match comparison.as_bool with
    | some v2 => v2 == b
    | none => false

/-- src/ast.rs `Value::ne`. -/
def ne (v : Value) (comparison : JsonValue) : Bool :=
  match v with
  | .StringLiteral s =>
    match comparison.as_str with
    | some v2 => v2 != s
    | none => false
  | .Identifier s =>
    match comparison.as_str with
    | some v2 => v2 != s
    | none => false
  | .IntegerLiteral i =>
    match comparison.as_i64 with
    | some v2 => v2 != i
    | none => false
  | .FloatLiteral i =>
    match comparison.as_f64 with
    | some v2 => v2 != i
    | none => false
  | .Boolean b =>
    match comparison.as_bool with
    | some v2 => v2 != b
    | none => false

/-- src/ast.rs `Value::lt`: `i > &v` where `i` is the literal and `v` the
external scalar; only numeric literals compare, all else is `false`. -/
def lt (v : Value) (comparison : JsonValue) : Bool :=
  match v with
  | .IntegerLiteral i =>
    match comparison.as_i64 with
    | some v2 => decide (i > v2)
    | none => false
  | .FloatLiteral i =>
    match comparison.as_f64 with
    | some v2 => decide (i > v2)
    | none => false
  | _ => false

/-- src/ast.rs `Value::le`: `i >= &v`. -/
def le (v : Value) (comparison : JsonValue) : Bool :=
  match v with
  | .IntegerLiteral i =>
    match comparison.as_i64 with
    | some v2 => decide (i ≥ v2)
    | none => false
  | .FloatLiteral i =>
    match comparison.as_f64 with
    | some v2 => decide (i ≥ v2)
    | none => false
  | _ => false

/-- src/ast.rs `Value::gt`: `i < &v`. -/
def gt (v : Value) (comparison : JsonValue) : Bool :=
  match v with
  | .IntegerLiteral i =>
    match comparison.as_i64 with
    | some v2 => decide (i < v2)
    | none => false
  | .FloatLiteral i =>
    match comparison.as_f64 with
    | some v2 => decide (i < v2)
    | none => false
  | _ => false

/-- src/ast.rs `Value::ge`: `i <= &v`. -/
def ge (v : Value) (comparison : JsonValue) : Bool :=
  match v with
  | .IntegerLiteral i =>
    match comparison.as_i64 with
    | some v2 => decide (i ≤ v2)
    | none => false
  | .FloatLiteral i =>
    match comparison.as_f64 with
    | some v2 => decide (i ≤ v2)
    | none => false
  | _ => false

end Value

/-! ## The parser, from src/parser.rs -/

/-- `ParserError` from src/parser.rs. -/
inductive ParserError where
  | ExpectedQueryToken (t : Token)
  | ExpectedFilterToken (t : Token)
  | ExpectedValueToken (t : Token)
  | ExpectedSomethingToken (t : Token)
  | ExpectedIdentifierToken (t : Token)
  | ExpectedBooleanToken (t : Token)
  | ExpectedIntegerToken (t : Token)
  | ExpectedFloatToken (t : Token)
  | ExpectedStringToken (t : Token)
  | ExpectedLparen (t : Token)
  | ExpectedRparen (t : Token)
  | ExpectedComma (t : Token)
  | ParseInt (s : String)
  | ParseFloat (s : String)
  | NotImplemented (s : String)
deriving DecidableEq

/-- Read a nonempty all-digit character list as a natural number. -/
def digitsToNat? (cs : List Char) : Option Nat :=
  match cs with
  | [] => none
  | _ =>
    cs.foldl
      (fun acc c =>
        match acc with
        | none => none
        | some n => if is_digit c then some (n * 10 + (c.toNat - 48)) else none)
      (some 0)

/-- `i64::from_str` on the digit strings the lexer produces: the value when
it fits in an `i64`, overflow otherwise. -/
def parseI64 (s : String) : Option Int :=
  match digitsToNat? s.data with
  | some n => if n ≤ 2 ^ 63 - 1 then some (n : Int) else none
  | none => none

/-- Split a character list at the dots. -/
def splitDotAux : List Char → List Char → List (List Char)
  | [], acc => [acc.reverse]
  | c :: cs, acc =>
    if c = '.' then acc.reverse :: splitDotAux cs []
    else splitDotAux cs (c :: acc)

/-- `f64::from_str` on the `digits.digits` strings the lexer produces,
modelled as the exact rational (see the header for the rounding caveat).
On such strings the Rust parse never fails. -/
def parseF64 (s : String) : Option Rat :=
  match splitDotAux s.data [] with
  | [a] =>
    match digitsToNat? a with
    | some n => some (n : Rat)
    | none => none
  | [a, b] =>
    match digitsToNat? a, digitsToNat? b with
    | some n, some f => some ((n : Rat) + (f : Rat) / (10 : Rat) ^ b.length)
    | _, _ => none
  | _ => none

/-- The parser state: the lexer plus the two-token window.  The Rust struct
also carries an `errors: Vec<ParserError>` that no function of src/parser.rs
ever pushes to; it is omitted. -/
structure Parser where
  lexer : Lexer
  cur_token : Token
  peek_token : Token

/-- Results of parsing functions: the Rust `Result<T, ParserError>` paired
with the parser state that `&mut self` threads. -/
abbrev PResult (α : Type) := Except ParserError α

namespace Parser

/-- src/parser.rs `Parser::next_token`: the peek token becomes current and a
fresh token is pulled from the lexer. -/
def next_token (p : Parser) : Parser :=
  let (t, l) := p.lexer.next_token
  ⟨l, p.peek_token, t⟩

/-- src/parser.rs `Parser::new`. -/
def new (lexer : Lexer) : Parser :=
  next_token (next_token ⟨lexer, .Illegal, .Illegal⟩)

/-- src/parser.rs `Parser::expect_peek`: on a mismatch, return the typed
error on the observed peek token without advancing; otherwise advance. -/
def expect_peek (p : Parser) (token : Token)
    (expected : Token → ParserError) : PResult Unit × Parser :=
  if p.peek_token ≠ token then (.error (expected p.peek_token), p)
  else (.ok (), p.next_token)

/-- src/parser.rs `Parser::parse_identifier_string` (reads `&self` only). -/
def parse_identifier_string (p : Parser) : PResult String :=
  match p.cur_token with
  | .Ident ident => .ok ident
  | _ => .error (.ExpectedIdentifierToken p.cur_token)

/-- src/parser.rs `Parser::parse_identifier`. -/
def parse_identifier (p : Parser) : PResult Value × Parser :=
  ((parse_identifier_string p).map .Identifier, p)

/-- src/parser.rs `Parser::parse_integer_literal`. -/
def parse_integer_literal (p : Parser) : PResult Value × Parser :=
  match p.cur_token with
  | .Int int =>
    match parseI64 int with
    | some value => (.ok (.IntegerLiteral value), p)
    | none => (.error (.ParseInt int), p)
  | _ => (.error (.ExpectedIntegerToken p.cur_token), p)

/-- src/parser.rs `Parser::parse_float_literal`. -/
def parse_float_literal (p : Parser) : PResult Value × Parser :=
  match p.cur_token with
  | .Float float =>
    match parseF64 float with
    | some value => (.ok (.FloatLiteral value), p)
    | none => (.error (.ParseFloat float), p)
  | _ => (.error (.ExpectedFloatToken p.cur_token), p)

/-- src/parser.rs `Parser::parse_string_literal`. -/
def parse_string_literal (p : Parser) : PResult Value × Parser :=
  match p.cur_token with
  | .Str s => (.ok (.StringLiteral s), p)
  | _ => (.error (.ExpectedStringToken p.cur_token), p)

/-- src/parser.rs `Parser::parse_boolean`. -/
def parse_boolean (p : Parser) : PResult Value × Parser :=
  match p.cur_token with
  | .True => (.ok (.Boolean true), p)
  | .False => (.ok (.Boolean false), p)
  | _ => (.error (.ExpectedBooleanToken p.cur_token), p)

/-- src/parser.rs `Parser::parse_value`: choose the value-parsing function
from the current token, `None` when the token cannot start a value. -/
def parse_value (p : Parser) : Option (Parser → PResult Value × Parser) :=
  match p.cur_token with
  | .Ident _ => some parse_identifier
  | .Int _ => some parse_integer_literal
  | .Float _ => some parse_float_literal
  | .Str _ => some parse_string_literal
  | .True => some parse_boolean
  | .False => some parse_boolean
  | _ => none

/-- src/parser.rs `Parser::parse_sort`: the unimplemented stub. -/
def parse_sort (p : Parser) : PResult Query × Parser :=
  (.error (.NotImplemented "sort"), p)

/-- The comparator match at the top of src/parser.rs `Parser::parse_filter`:
`let filter = match &self.cur_token { ... }`, with the catch-all arm that
makes the whole function return `ExpectedFilterToken` rendered as `none`. -/
def filterOf (t : Token) : Option InfixOp :=
  match t with
  | .Eq => some .Eq
  | .NotEq => some .NotEq
  | .Le => some .Le
  | .Ge => some .Ge
  | .Lt => some .Lt
  | .Gt => some .Gt
  | _ => none

/-- src/parser.rs `Parser::parse_filter`: comparator, `(`, identifier, `,`,
value, `)`; on success the parser is advanced past the closing paren. -/
def parse_filter (p : Parser) : PResult Query × Parser :=
  match filterOf p.cur_token with
  | none => (.error (.ExpectedFilterToken p.cur_token), p)
  | some filter =>
    match expect_peek p .Lparen .ExpectedLparen with
    | (.error e, p1) => (.error e, p1)
    | (.ok _, p1) =>
      let p2 := p1.next_token
      match parse_identifier p2 with
      | (.error e, p3) => (.error e, p3)
      | (.ok idnet, p3) =>
        match expect_peek p3 .Comma .ExpectedComma with
        | (.error e, p4) => (.error e, p4)
        | (.ok _, p4) =>
          let p5 := p4.next_token
          match parse_value p5 with
          | none => (.error (.ExpectedValueToken p5.cur_token), p5)
          | some value =>
            match value p5 with
            | (.error e, p6) => (.error e, p6)
            | (.ok val, p6) =>
              match expect_peek p6 .Rparen .ExpectedRparen with
              | (.error e, p7) => (.error e, p7)
              | (.ok _, p7) => (.ok (.Filter filter idnet val), p7.next_token)

/-- The `while self.cur_token != Token::Rparen` loop shared by `parse_and`
and `parse_or`: parse queries, skipping a comma after each, until the
closing paren.  `pq` is the recursive call to `parse_query` and the fuel
bounds the number of loop iterations; `none` means the fuel ran out, which
never happens on the inputs evaluated below. -/
def qloop (pq : Parser → Option (PResult Query × Parser)) :
    Nat → Parser → List Query → Option (PResult (List Query) × Parser)
  | fuel, p, queries =>
    if p.cur_token = .Rparen then some (.ok queries, p)
    else
      match fuel with
      | 0 => none
      | fuel + 1 =>
        match pq p with
        | none => none
        | some (.error e, p1) => some (.error e, p1)
        | some (.ok q, p1) =>
          let p2 := if p1.cur_token = .Comma then p1.next_token else p1
          qloop pq fuel p2 (queries ++ [q])

/-- src/parser.rs `Parser::parse_and`. -/
def parse_and (pq : Parser → Option (PResult Query × Parser)) (fuel : Nat)
    (p : Parser) : Option (PResult Query × Parser) :=
  match expect_peek p .Lparen .ExpectedLparen with
  | (.error e, p1) => some (.error e, p1)
  | (.ok _, p1) =>
    match qloop pq fuel p1.next_token [] with
    | none => none
    | some (.error e, p2) => some (.error e, p2)
    | some (.ok queries, p2) => some (.ok (.And queries), p2.next_token)

/-- src/parser.rs `Parser::parse_or`. -/
def parse_or (pq : Parser → Option (PResult Query × Parser)) (fuel : Nat)
    (p : Parser) : Option (PResult Query × Parser) :=
  match expect_peek p .Lparen .ExpectedLparen with
  | (.error e, p1) => some (.error e, p1)
  | (.ok _, p1) =>
    match qloop pq fuel p1.next_token [] with
    | none => none
    | some (.error e, p2) => some (.error e, p2)
    | some (.ok queries, p2) => some (.ok (.Or queries), p2.next_token)

/-- src/parser.rs `Parser::parse_query`: dispatch on the current token;
everything that is not `and`/`or` goes to the filter branch. -/
def parse_query : Nat → Parser → Option (PResult Query × Parser)
  | 0, _ => none
  | fuel + 1, p =>
    match p.cur_token with
    | .And => parse_and (fun p2 => parse_query fuel p2) fuel p
    | .Or => parse_or (fun p2 => parse_query fuel p2) fuel p
    | _ => some (parse_filter p)

end Parser

/-- Parse a full input string with the given fuel, keeping only the
`Result`: `Parser::new_from_string` followed by `parse_query`. -/
def parseString (input : List Char) (fuel : Nat) : Option (PResult Query) :=
  (Parser.parse_query fuel (Parser.new (Lexer.new input))).map (fun r => r.1)

example : parseString "eq(foo.bar,\"a\")".toList 1 =
    some (.ok (.Filter .Eq (.Identifier "foo.bar") (.StringLiteral "a"))) := by
  rfl

example : parseString "and(eq(speed.max,100),lt(speed.min, 60))".toList 5 =
    some (.ok (.And [.Filter .Eq (.Identifier "speed.max") (.IntegerLiteral 100),
      .Filter .Lt (.Identifier "speed.min") (.IntegerLiteral 60)])) := by
  rfl

/-! ## Claims about the value comparisons (src/ast.rs) -/

/-- C1: on an `IntegerLiteral n` with an integer candidate `c`, `lt` holds
iff `c < n`, `le` iff `c ≤ n`, `gt` iff `c > n`, `ge` iff `c ≥ n`; likewise
on a `FloatLiteral` with a float candidate; and on a `Value` of any other
kind (`Identifier`, `StringLiteral`, `Boolean`) all four comparisons return
`false` for every candidate. -/
theorem claim_C1 :
    (∀ n c : Int,
      (Value.lt (.IntegerLiteral n) (.num (.ofI64 c)) = true ↔ c < n) ∧
      (Value.le (.IntegerLiteral n) (.num (.ofI64 c)) = true ↔ c ≤ n) ∧
      (Value.gt (.IntegerLiteral n) (.num (.ofI64 c)) = true ↔ c > n) ∧
      (Value.ge (.IntegerLiteral n) (.num (.ofI64 c)) = true ↔ c ≥ n)) ∧
    (∀ n c : Rat,
      (Value.lt (.FloatLiteral n) (.num (.ofF64 c)) = true ↔ c < n) ∧
      (Value.le (.FloatLiteral n) (.num (.ofF64 c)) = true ↔ c ≤ n) ∧
      (Value.gt (.FloatLiteral n) (.num (.ofF64 c)) = true ↔ c > n) ∧
      (Value.ge (.FloatLiteral n) (.num (.ofF64 c)) = true ↔ c ≥ n)) ∧
    (∀ (s : String) (c : JsonValue),
      Value.lt (.Identifier s) c = false ∧ Value.le (.Identifier s) c = false ∧
      Value.gt (.Identifier s) c = false ∧ Value.ge (.Identifier s) c = false) ∧
    (∀ (s : String) (c : JsonValue),
      Value.lt (.StringLiteral s) c = false ∧
      Value.le (.StringLiteral s) c = false ∧
      Value.gt (.StringLiteral s) c = false ∧
      Value.ge (.StringLiteral s) c = false) ∧
    (∀ (b : Bool) (c : JsonValue),
      Value.lt (.Boolean b) c = false ∧ Value.le (.Boolean b) c = false ∧
      Value.gt (.Boolean b) c = false ∧ Value.ge (.Boolean b) c = false) := by
  refine ⟨fun n c => ?_, fun n c => ?_, fun s c => ?_, fun s c => ?_,
    fun b c => ?_⟩ <;>
    simp [Value.lt, Value.le, Value.gt, Value.ge, JsonValue.as_i64,
      JsonValue.as_f64]

/-- C3: for a `Value` of kind `StringLiteral`, `Identifier` or `Boolean`
compared against a candidate whose runtime kind does not match (no string
for the first two, no boolean for the last), BOTH `eq` and `ne` return
`false`; in particular the two are not complements there. -/
theorem claim_C3 :
    (∀ (s : String) (c : JsonValue), c.as_str = none →
      Value.eq (.StringLiteral s) c = false ∧
      Value.ne (.StringLiteral s) c = false) ∧
    (∀ (s : String) (c : JsonValue), c.as_str = none →
      Value.eq (.Identifier s) c = false ∧
      Value.ne (.Identifier s) c = false) ∧
    (∀ (b : Bool) (c : JsonValue), c.as_bool = none →
      Value.eq (.Boolean b) c = false ∧
      Value.ne (.Boolean b) c = false) := by
  refine ⟨fun s c h => ?_, fun s c h => ?_, fun b c h => ?_⟩ <;>
    simp [Value.eq, Value.ne, h]

/-- Witness for C3: an integer candidate against a string literal, a
boolean candidate against an identifier, a string candidate against a
boolean. -/
theorem claim_C3_witness :
    (Value.eq (.StringLiteral "a") (.num (.ofI64 3)) = false ∧
      Value.ne (.StringLiteral "a") (.num (.ofI64 3)) = false) ∧
    (Value.eq (.Identifier "a") (.bool true) = false ∧
      Value.ne (.Identifier "a") (.bool true) = false) ∧
    (Value.eq (.Boolean true) (.str "x") = false ∧
      Value.ne (.Boolean true) (.str "x") = false) :=
  ⟨claim_C3.1 "a" (.num (.ofI64 3)) rfl,
    claim_C3.2.1 "a" (.bool true) rfl,
    claim_C3.2.2 true (.str "x") rfl⟩

/-- C10: when the candidate's runtime kind matches the `Value`'s kind,
`ne` is the exact logical complement of `eq`. -/
theorem claim_C10 :
    (∀ s v : String,
      Value.ne (.StringLiteral s) (.str v) = !Value.eq (.StringLiteral s) (.str v)) ∧
    (∀ s v : String,
      Value.ne (.Identifier s) (.str v) = !Value.eq (.Identifier s) (.str v)) ∧
    (∀ n c : Int,
      Value.ne (.IntegerLiteral n) (.num (.ofI64 c)) =
        !Value.eq (.IntegerLiteral n) (.num (.ofI64 c))) ∧
    (∀ x q : Rat,
      Value.ne (.FloatLiteral x) (.num (.ofF64 q)) =
        !Value.eq (.FloatLiteral x) (.num (.ofF64 q))) ∧
    (∀ b c : Bool,
      Value.ne (.Boolean b) (.bool c) = !Value.eq (.Boolean b) (.bool c)) := by
  refine ⟨fun s v => ?_, fun s v => ?_, fun n c => ?_, fun x q => ?_,
    fun b c => ?_⟩ <;>
    simp [Value.eq, Value.ne, JsonValue.as_str, JsonValue.as_i64,
      JsonValue.as_f64, JsonValue.as_bool, bne]

/-! ## Claims about the parser (src/parser.rs) -/

/-- C2: `And`/`Or` carry the child queries in source left-to-right order and
the list may be empty: `and()` parses to `And []`, and a two-child `and`
keeps its children in order. -/
theorem claim_C2 :
    parseString "and()".toList 2 = some (.ok (.And [])) ∧
    parseString "and(eq(a,1),eq(b,2))".toList 5 =
      some (.ok (.And [.Filter .Eq (.Identifier "a") (.IntegerLiteral 1),
        .Filter .Eq (.Identifier "b") (.IntegerLiteral 2)])) :=
  ⟨rfl, rfl⟩

/-- C4: malformed filters fail with the matching typed error carrying the
observed token: `eq(foo)` with `ExpectedComma`, `eq(foo,)` with
`ExpectedValueToken`, and `eq(foo,"a"` (no closing paren) with
`ExpectedRparen`. -/
theorem claim_C4 :
    parseString "eq(foo)".toList 1 = some (.error (.ExpectedComma .Rparen)) ∧
    parseString "eq(foo,)".toList 1 =
      some (.error (.ExpectedValueToken .Rparen)) ∧
    parseString "eq(foo,\"a\"".toList 1 =
      some (.error (.ExpectedRparen .Eof)) :=
  ⟨rfl, rfl, rfl⟩

/-- C5: an input whose first token is `Sort` is dispatched to the filter
branch and fails with `ExpectedFilterToken Sort` — in particular never with
`NotImplemented "sort"`, so the `parse_sort` stub is unreachable from
`parse_query`. -/
theorem claim_C5 (input : List Char) (fuel : Nat)
    (h : (Parser.new (Lexer.new input)).cur_token = .Sort) :
    parseString input (fuel + 1) =
      some (.error (.ExpectedFilterToken .Sort)) := by
  unfold parseString
  rw [Parser.parse_query, h]
  simp [Parser.parse_filter, Parser.filterOf, h]

/-- Witness for C5: the top-level input `sort(foo)`. -/
theorem claim_C5_witness :
    (Parser.new (Lexer.new "sort(foo)".toList)).cur_token = .Sort ∧
    parseString "sort(foo)".toList 1 =
      some (.error (.ExpectedFilterToken .Sort)) :=
  ⟨rfl, claim_C5 "sort(foo)".toList 0 rfl⟩

/-- C7: a failed `expect_peek` returns the typed error carrying the
actually-observed peek token and leaves the parser state — in particular
the current and peek tokens — completely unchanged. -/
theorem claim_C7 (p : Parser) (t : Token) (mk : Token → ParserError)
    (h : p.peek_token ≠ t) :
    Parser.expect_peek p t mk = (.error (mk p.peek_token), p) := by
  simp [Parser.expect_peek, h]

/-- Witness for C7: expecting a comma while the peek token is `Rparen`. -/
theorem claim_C7_witness :
    Parser.expect_peek ⟨Lexer.new [], .Ident "x", .Rparen⟩ .Comma
        .ExpectedComma =
      (.error (.ExpectedComma .Rparen), ⟨Lexer.new [], .Ident "x", .Rparen⟩) :=
  claim_C7 ⟨Lexer.new [], .Ident "x", .Rparen⟩ .Comma .ExpectedComma
    (by decide)

/-! ## Claims about the lexer (src/lexer.rs) -/

/-- Skipping whitespace from a non-whitespace character is the identity. -/
theorem skipWS_not_ws (ch : Char) (rest : List Char)
    (h : is_whitespace ch = false) : Lexer.skipWS ch rest = ⟨ch, rest⟩ := by
  cases rest <;> rw [Lexer.skipWS] <;> simp [h]

/-- Helper for C6: when the pending characters contain neither a closing
quote nor the end-of-input sentinel, the string-reading loop collects all of
them and stops on the synthesized sentinel. -/
theorem readStrAux_no_term (rest : List Char) (h1 : '"' ∉ rest)
    (h2 : '\x00' ∉ rest) :
    Lexer.readStrAux rest = (rest, ⟨'\x00', []⟩) := by
  induction rest with
  | nil => rfl
  | cons c cs ih =>
    simp only [List.mem_cons, not_or] at h1 h2
    rw [Lexer.readStrAux]
    simp only [beq_iff_eq]
    rw [if_neg (by simp [Ne.symm h1.1, Ne.symm h2.1]),
      ih h1.2 h2.2]

/-- C6: a string literal whose closing quote is missing is not an error —
`next_token` returns a `Str` token holding exactly the text from after the
opening quote to the end of the input, leaving the lexer at end-of-input. -/
theorem claim_C6 (rest : List Char) (h1 : '"' ∉ rest) (h2 : '\x00' ∉ rest) :
    Lexer.next_token ⟨'"', rest⟩ = (.Str (String.mk rest), ⟨'\x00', []⟩) := by
  rw [Lexer.next_token]
  rw [skipWS_not_ws '"' rest (by decide)]
  simp [readStrAux_no_term rest h1 h2, Lexer.read_char]

/-- Witness for C6: lexing `eq(x,"abc` ends with `Str "abc"` and then
end-of-input, as in the claim's example. -/
theorem claim_C6_witness :
    Lexer.next_token ⟨'"', "abc".toList⟩ = (.Str "abc", ⟨'\x00', []⟩) ∧
    lexTokens 6 (Lexer.new "eq(x,\"abc".toList) =
      [.Eq, .Lparen, .Ident "x", .Comma, .Str "abc", .Eof] :=
  ⟨claim_C6 "abc".toList (by decide) (by decide), by decide⟩

/-- C8 counterexample: the claim quantifies over every input string, but a
Rust `String` may contain the NUL character, which the lexer cannot tell
from its end-of-input sentinel.  On the input `"\u{0}("` the first call to
`next_token` returns `Eof` (at the embedded NUL) and the second returns
`Lparen`, so `Eof` is not absorbing on this input. -/
theorem claim_C8_counterexample :
    (((Lexer.new ['\x00', '(']).next_token).1 = .Eof ∧
      ((((Lexer.new ['\x00', '(']).next_token).2).next_token).1 = .Lparen) ∧
    Token.Lparen ≠ Token.Eof := by
  refine ⟨⟨rfl, rfl⟩, by decide⟩

/-- The lexer states reachable from a NUL-free input: no pending char is
the sentinel, and the current char is the sentinel only once the input is
exhausted. -/
def LexerOk (l : Lexer) : Prop :=
  (∀ c ∈ l.rest, c ≠ '\x00') ∧ (l.ch = '\x00' → l.rest = [])

theorem read_char_ok {l : Lexer} (h : LexerOk l) : LexerOk l.read_char := by
  obtain ⟨h1, _⟩ := h
  match l with
  | ⟨_, []⟩ => exact ⟨by simp [Lexer.read_char], fun _ => rfl⟩
  | ⟨_, c :: cs⟩ =>
    refine ⟨fun d hd => h1 d (List.mem_cons_of_mem c hd), fun hc => ?_⟩
    exact absurd hc (h1 c (List.mem_cons_self c cs))

theorem skipWS_ok :
    ∀ (rest : List Char) (ch : Char), LexerOk ⟨ch, rest⟩ →
      LexerOk (Lexer.skipWS ch rest)
  | [], ch, h => by
    rw [Lexer.skipWS]
    split
    · exact ⟨by simp, fun _ => rfl⟩
    · exact h
  | c :: cs, ch, h => by
    rw [Lexer.skipWS]
    split
    · exact skipWS_ok cs c ⟨fun d hd => h.1 d (List.mem_cons_of_mem c hd),
        fun hc => absurd hc (h.1 c (List.mem_cons_self c cs))⟩
    · exact h

theorem readSeg_ok :
    ∀ (rest : List Char) (p : Char → Bool) (ch : Char),
      LexerOk ⟨ch, rest⟩ → LexerOk (Lexer.readSeg p ch rest).2
  | [], p, ch, h => by
    rw [Lexer.readSeg]
    split
    · exact ⟨by simp, fun _ => rfl⟩
    · exact h
  | c :: cs, p, ch, h => by
    rw [Lexer.readSeg]
    split
    · have := readSeg_ok cs p c
        ⟨fun d hd => h.1 d (List.mem_cons_of_mem c hd),
          fun hc => absurd hc (h.1 c (List.mem_cons_self c cs))⟩
      simpa using this
    · exact h

theorem read_identifier_ok {rest : List Char} {ch : Char}
    (h : LexerOk ⟨ch, rest⟩) : LexerOk (Lexer.read_identifier ch rest).2 := by
  rw [Lexer.read_identifier.eq_def]
  split
  · match rest with
    | [] => exact ⟨by simp, fun _ => rfl⟩
    | c :: cs =>
      have := readSeg_ok cs (fun c2 => is_letter c2 || is_digit c2) c
        ⟨fun d hd => h.1 d (List.mem_cons_of_mem c hd),
          fun hc => absurd hc (h.1 c (List.mem_cons_self c cs))⟩
      simpa using this
  · exact readSeg_ok rest _ ch h

theorem readStrAux_ok :
    ∀ rest : List Char, (∀ c ∈ rest, c ≠ '\x00') →
      LexerOk (Lexer.readStrAux rest).2
  | [], _ => by
    rw [Lexer.readStrAux]
    exact ⟨by simp, fun _ => rfl⟩
  | c :: cs, h => by
    rw [Lexer.readStrAux]
    split
    · exact ⟨fun d hd => h d (List.mem_cons_of_mem c hd),
        fun hc => absurd hc (h c (List.mem_cons_self c cs))⟩
    · have := readStrAux_ok cs fun d hd => h d (List.mem_cons_of_mem c hd)
      simpa using this

theorem next_token_ok {l : Lexer} (h : LexerOk l) :
    LexerOk (l.next_token).2 := by
  rw [Lexer.next_token]
  have hok1 : LexerOk (Lexer.skipWS l.ch l.rest) := skipWS_ok l.rest l.ch h
  generalize Lexer.skipWS l.ch l.rest = l1 at hok1 ⊢
  split
  · exact read_char_ok hok1
  · split
    · exact read_char_ok hok1
    · split
      · exact read_char_ok hok1
      · split
        · exact read_char_ok hok1
        · split
          · exact read_char_ok hok1
          · split
            · exact read_char_ok (readStrAux_ok l1.rest hok1.1)
            · split
              · exact read_char_ok hok1
              · split
                · exact read_identifier_ok hok1
                · split
                  · split
                    rename_i ip l2 hq
                    rw [Lexer.read_number] at hq
                    have hok2 : LexerOk l2 := by
                      have h0 := readSeg_ok l1.rest is_digit l1.ch hok1
                      rw [hq] at h0
                      exact h0
                    split
                    · dsimp only
                      rw [Lexer.read_number]
                      exact readSeg_ok l2.read_char.rest is_digit
                        l2.read_char.ch (read_char_ok hok2)
                    · exact hok2
                  · exact read_char_ok hok1

/-- A keyword lookup never produces `Eof`. -/
theorem lookup_ident_ne_eof (s : String) : lookup_ident s ≠ .Eof := by
  unfold lookup_ident keyword_to_token
  split <;> simp

/-- On a NUL-free reachable state, `next_token` returns `Eof` only once the
input is exhausted, and then leaves the lexer in the exhausted state. -/
theorem next_token_eof {l : Lexer} (h : LexerOk l)
    (he : (l.next_token).1 = .Eof) : (l.next_token).2 = ⟨'\x00', []⟩ := by
  rw [Lexer.next_token] at he ⊢
  have hok1 : LexerOk (Lexer.skipWS l.ch l.rest) := skipWS_ok l.rest l.ch h
  generalize Lexer.skipWS l.ch l.rest = l1 at hok1 he ⊢
  split at he
  · simp at he
  · split at he
    · simp at he
    · split at he
      · simp at he
      · split at he
        · simp at he
        · split at he
          · simp at he
          · split at he
            · simp at he
            · split at he
              · rename_i hch
                have hrest : l1.rest = [] := hok1.2 hch
                obtain ⟨a, b⟩ := l1
                have ha : a = '\x00' := hch
                have hb : b = [] := hrest
                subst ha
                subst hb
                rfl
              · split at he
                · exact absurd he (lookup_ident_ne_eof _)
                · split at he
                  · split at he
                    split at he <;> simp at he
                  · simp at he

theorem next_token_exhausted :
    Lexer.next_token ⟨'\x00', []⟩ = (.Eof, ⟨'\x00', []⟩) := rfl

/-- Run the lexer forward `n` tokens. -/
def lexSteps : Nat → Lexer → Lexer
  | 0, l => l
  | n + 1, l => lexSteps n (l.next_token).2

/-- The `k`-th token (0-based) of the token stream of `input`. -/
def nthToken (input : List Char) (k : Nat) : Token :=
  ((lexSteps k (Lexer.new input)).next_token).1

theorem lexSteps_ok {l : Lexer} (h : LexerOk l) :
    ∀ n, LexerOk (lexSteps n l) := by
  intro n
  induction n generalizing l with
  | zero => exact h
  | succ n ih => exact ih (next_token_ok h)

theorem lexSteps_exhausted : ∀ n, lexSteps n ⟨'\x00', []⟩ = ⟨'\x00', []⟩
  | 0 => rfl
  | n + 1 => lexSteps_exhausted n

theorem lexSteps_add (m n : Nat) (l : Lexer) :
    lexSteps (m + n) l = lexSteps n (lexSteps m l) := by
  induction m generalizing l with
  | zero => simp [lexSteps]
  | succ m ih =>
    have hmn : m + 1 + n = (m + n) + 1 := by omega
    rw [hmn]
    simp only [lexSteps]
    exact ih _

theorem new_ok {input : List Char} (h : '\x00' ∉ input) :
    LexerOk (Lexer.new input) := by
  cases input with
  | nil => exact ⟨by simp [Lexer.new, Lexer.read_char], fun _ => rfl⟩
  | cons c cs =>
    simp only [List.mem_cons, not_or] at h
    show LexerOk ⟨c, cs⟩
    exact ⟨fun d hd => by rintro rfl; exact h.2 hd,
      fun hc => absurd hc.symm h.1⟩

/-- C8, amended: for every input string not containing the NUL character,
once `next_token` has returned `Eof` every subsequent call also returns
`Eof` — the cursor never moves past the end. -/
theorem claim_C8 (input : List Char) (h : '\x00' ∉ input) (k n : Nat)
    (hk : nthToken input k = .Eof) : nthToken input (k + n) = .Eof := by
  cases n with
  | zero => exact hk
  | succ n =>
    have hok : LexerOk (lexSteps k (Lexer.new input)) :=
      lexSteps_ok (new_ok h) k
    have hdead : lexSteps (k + 1) (Lexer.new input) = ⟨'\x00', []⟩ := by
      rw [lexSteps_add k 1]
      simpa [lexSteps] using next_token_eof hok hk
    unfold nthToken
    have hkn : k + (n + 1) = (k + 1) + n := by omega
    rw [hkn, lexSteps_add (k + 1) n, hdead, lexSteps_exhausted]
    rfl

/-- Witness for C8: on the NUL-free input `"a"` the second token is `Eof`
and so is every later one. -/
theorem claim_C8_witness :
    ('\x00' ∉ "a".toList ∧ nthToken "a".toList 1 = .Eof) ∧
    nthToken "a".toList (1 + 5) = .Eof :=
  ⟨⟨by decide, rfl⟩, claim_C8 "a".toList (by decide) 1 5 rfl⟩

/-! ## C9: trailing input after a complete query is ignored

The parser pulls tokens lazily, so appending characters to an input whose
parse succeeds cannot change the result: the proof is a simulation between
the run on `input` and the run on `input ++ suffix`.  The runs stay in
lockstep while the first lexer has not consumed its end of input; after
that point the first run only produces tokens that a successful parse
never inspects. -/

/-- The lexer states the short run can be left in right after a token whose
reading touched the end of the input: fully exhausted, or stopped on a
final `'.'` whose lookahead was the synthesized sentinel. -/
def DeadLex (l : Lexer) : Prop :=
  l = ⟨'\x00', []⟩ ∨ l = ⟨'.', []⟩

/-- Tokens that are not one of the three punctuation tokens the parser
matches key decisions on.  Every token a dead lexer produces is of this
shape, and every successful parse inspects only tokens that are not. -/
abbrev notPunct (t : Token) : Prop :=
  t ≠ .Lparen ∧ t ≠ .Rparen ∧ t ≠ .Comma

/-- A dead lexer only yields non-punctuation tokens and stays dead. -/
theorem dead_next {l : Lexer} (h : DeadLex l) :
    notPunct (l.next_token).1 ∧ DeadLex (l.next_token).2 := by
  rcases h with rfl | rfl
  · exact ⟨by decide, Or.inl rfl⟩
  · exact ⟨by decide, Or.inl rfl⟩

/-- The dispatch part of `next_token`, after whitespace skipping. -/
def Lexer.tokenize (l : Lexer) : Token × Lexer :=
  if l.ch = '(' then (.Lparen, l.read_char)
  else if l.ch = ')' then (.Rparen, l.read_char)
  else if l.ch = ',' then (.Comma, l.read_char)
  else if l.ch = '+' then (.Plus, l.read_char)
  else if l.ch = '-' then (.Minus, l.read_char)
  else if l.ch = '"' then
    let (s, l1) := Lexer.readStrAux l.rest
    (.Str (String.mk s), l1.read_char)
  else if l.ch = '\x00' then (.Eof, l.read_char)
  else if is_letter l.ch then
    let (s, l1) := Lexer.read_identifier l.ch l.rest
    (lookup_ident (String.mk s), l1)
  else if is_digit l.ch then
    let (integer_part, l1) := Lexer.read_number l.ch l.rest
    if l1.ch = '.' && is_digit l1.peek_char then
      let l2 := l1.read_char
      let (fractional_part, l3) := Lexer.read_number l2.ch l2.rest
      (.Float (String.mk integer_part ++ "." ++ String.mk fractional_part), l3)
    else (.Int (String.mk integer_part), l1)
  else (.Illegal, l.read_char)

theorem next_token_as_tokenize (l : Lexer) :
    l.next_token = Lexer.tokenize (Lexer.skipWS l.ch l.rest) := rfl

/-- A keyword lookup never produces punctuation. -/
theorem lookup_ident_not_punct (s : String) : notPunct (lookup_ident s) := by
  unfold lookup_ident keyword_to_token
  split <;> simp [notPunct]

/-- Appending a suffix commutes with whitespace skipping, unless the skip
consumed the whole input. -/
theorem skipWS_app :
    ∀ (rest : List Char) (ch : Char) (suffix : List Char),
      ((Lexer.skipWS ch (rest ++ suffix)).ch = (Lexer.skipWS ch rest).ch ∧
        (Lexer.skipWS ch (rest ++ suffix)).rest =
          (Lexer.skipWS ch rest).rest ++ suffix) ∨
      Lexer.skipWS ch rest = ⟨'\x00', []⟩
  | [], ch, suffix => by
    by_cases h : is_whitespace ch = true
    · right
      rw [Lexer.skipWS, if_pos h]
    · left
      rw [List.nil_append]
      cases suffix with
      | nil => rw [Lexer.skipWS, if_neg h]; exact ⟨rfl, rfl⟩
      | cons c cs =>
        rw [Lexer.skipWS, if_neg h, Lexer.skipWS, if_neg h]
        exact ⟨rfl, rfl⟩
  | c :: cs, ch, suffix => by
    by_cases h : is_whitespace ch = true
    · rw [List.cons_append, Lexer.skipWS, if_pos h, Lexer.skipWS, if_pos h]
      exact skipWS_app cs c suffix
    · rw [List.cons_append, Lexer.skipWS, if_neg h, Lexer.skipWS, if_neg h]
      left
      exact ⟨rfl, rfl⟩

/-- Appending a suffix commutes with `readSeg`, unless the segment ran to
the end of the input. -/
theorem readSeg_app :
    ∀ (rest : List Char) (p : Char → Bool) (ch : Char) (suffix : List Char),
      ((Lexer.readSeg p ch (rest ++ suffix)).1 =
          (Lexer.readSeg p ch rest).1 ∧
        (Lexer.readSeg p ch (rest ++ suffix)).2.ch =
          (Lexer.readSeg p ch rest).2.ch ∧
        (Lexer.readSeg p ch (rest ++ suffix)).2.rest =
          (Lexer.readSeg p ch rest).2.rest ++ suffix) ∨
      (Lexer.readSeg p ch rest).2 = ⟨'\x00', []⟩
  | [], p, ch, suffix => by
    by_cases h : p ch = true
    · right
      rw [Lexer.readSeg, if_pos h]
    · left
      rw [List.nil_append]
      cases suffix with
      | nil => rw [Lexer.readSeg, if_neg h]; exact ⟨rfl, rfl, rfl⟩
      | cons c cs =>
        rw [Lexer.readSeg, if_neg h, Lexer.readSeg, if_neg h]
        exact ⟨rfl, rfl, rfl⟩
  | c :: cs, p, ch, suffix => by
    by_cases h : p ch = true
    · rw [List.cons_append, Lexer.readSeg, if_pos h, Lexer.readSeg, if_pos h]
      rcases readSeg_app cs p c suffix with ⟨h1, h2, h3⟩ | hdead
      · left
        exact ⟨by simp [h1], by simpa using h2, by simpa using h3⟩
      · right
        simpa using hdead
    · rw [List.cons_append, Lexer.readSeg, if_neg h, Lexer.readSeg, if_neg h]
      left
      exact ⟨rfl, rfl, rfl⟩

/-- Appending a suffix commutes with the string-literal loop, unless the
literal was unterminated. -/
theorem readStrAux_app :
    ∀ (rest suffix : List Char),
      ((Lexer.readStrAux (rest ++ suffix)).1 = (Lexer.readStrAux rest).1 ∧
        (Lexer.readStrAux (rest ++ suffix)).2.ch =
          (Lexer.readStrAux rest).2.ch ∧
        (Lexer.readStrAux (rest ++ suffix)).2.rest =
          (Lexer.readStrAux rest).2.rest ++ suffix) ∨
      (Lexer.readStrAux rest).2 = ⟨'\x00', []⟩
  | [], _ => by
    right
    rw [Lexer.readStrAux]
  | c :: cs, suffix => by
    by_cases h : (c == '"' || c == '\x00') = true
    · rw [List.cons_append, Lexer.readStrAux, if_pos h, Lexer.readStrAux,
        if_pos h]
      left
      exact ⟨rfl, rfl, rfl⟩
    · rw [List.cons_append, Lexer.readStrAux, if_neg h, Lexer.readStrAux,
        if_neg h]
      rcases readStrAux_app cs suffix with ⟨h1, h2, h3⟩ | hdead
      · left
        exact ⟨by simp [h1], by simpa using h2, by simpa using h3⟩
      · right
        simpa using hdead

/-- Appending a suffix commutes with identifier reading, unless the
identifier ran to the end of the input. -/
theorem read_identifier_app (rest : List Char) (ch : Char)
    (suffix : List Char) :
    ((Lexer.read_identifier ch (rest ++ suffix)).1 =
        (Lexer.read_identifier ch rest).1 ∧
      (Lexer.read_identifier ch (rest ++ suffix)).2.ch =
        (Lexer.read_identifier ch rest).2.ch ∧
      (Lexer.read_identifier ch (rest ++ suffix)).2.rest =
        (Lexer.read_identifier ch rest).2.rest ++ suffix) ∨
    (Lexer.read_identifier ch rest).2 = ⟨'\x00', []⟩ := by
  by_cases h : is_letter ch = true
  · cases rest with
    | nil =>
      right
      rw [Lexer.read_identifier.eq_def, if_pos h]
    | cons c cs =>
      rw [List.cons_append, Lexer.read_identifier.eq_def, if_pos h,
        Lexer.read_identifier.eq_def, if_pos h]
      rcases readSeg_app cs (fun c2 => is_letter c2 || is_digit c2) c suffix
        with ⟨h1, h2, h3⟩ | hdead
      · left
        exact ⟨by simp [h1], by simpa using h2, by simpa using h3⟩
      · right
        simpa using hdead
  · rw [Lexer.read_identifier.eq_def, if_neg h,
      Lexer.read_identifier.eq_def, if_neg h]
    exact readSeg_app rest _ ch suffix


theorem read_char_app (ch : Char) (r suffix : List Char) :
    ((Lexer.read_char ⟨ch, r ++ suffix⟩).ch = (Lexer.read_char ⟨ch, r⟩).ch ∧
      (Lexer.read_char ⟨ch, r ++ suffix⟩).rest =
        (Lexer.read_char ⟨ch, r⟩).rest ++ suffix) ∨
    (r = [] ∧ Lexer.read_char ⟨ch, r⟩ = ⟨'\x00', []⟩) := by
  cases r with
  | nil => exact Or.inr ⟨rfl, rfl⟩
  | cons c cs => exact Or.inl ⟨rfl, rfl⟩

theorem lexer_eq_of (l1 l2 : Lexer) (h1 : l1.ch = l2.ch)
    (h2 : l1.rest = l2.rest) : l1 = l2 := by
  cases l1
  cases l2
  simp_all


set_option maxHeartbeats 1000000 in
theorem digit_tail_app (ip : List Char) (ach : Char) (arest suffix : List Char) :
    ((if (decide (ach = '.') &&
            is_digit (Lexer.peek_char ⟨ach, arest ++ suffix⟩)) = true then
        (Token.Float (String.mk ip ++ "." ++
            String.mk (Lexer.readSeg is_digit
              (Lexer.read_char ⟨ach, arest ++ suffix⟩).ch
              (Lexer.read_char ⟨ach, arest ++ suffix⟩).rest).1),
          (Lexer.readSeg is_digit
            (Lexer.read_char ⟨ach, arest ++ suffix⟩).ch
            (Lexer.read_char ⟨ach, arest ++ suffix⟩).rest).2)
      else (Token.Int (String.mk ip), ⟨ach, arest ++ suffix⟩)).1 =
      (if (decide (ach = '.') &&
            is_digit (Lexer.peek_char ⟨ach, arest⟩)) = true then
        (Token.Float (String.mk ip ++ "." ++
            String.mk (Lexer.readSeg is_digit
              (Lexer.read_char ⟨ach, arest⟩).ch
              (Lexer.read_char ⟨ach, arest⟩).rest).1),
          (Lexer.readSeg is_digit
            (Lexer.read_char ⟨ach, arest⟩).ch
            (Lexer.read_char ⟨ach, arest⟩).rest).2)
      else (Token.Int (String.mk ip), ⟨ach, arest⟩)).1 ∧
      (if (decide (ach = '.') &&
            is_digit (Lexer.peek_char ⟨ach, arest ++ suffix⟩)) = true then
        (Token.Float (String.mk ip ++ "." ++
            String.mk (Lexer.readSeg is_digit
              (Lexer.read_char ⟨ach, arest ++ suffix⟩).ch
              (Lexer.read_char ⟨ach, arest ++ suffix⟩).rest).1),
          (Lexer.readSeg is_digit
            (Lexer.read_char ⟨ach, arest ++ suffix⟩).ch
            (Lexer.read_char ⟨ach, arest ++ suffix⟩).rest).2)
      else (Token.Int (String.mk ip), ⟨ach, arest ++ suffix⟩)).2.ch =
      (if (decide (ach = '.') &&
            is_digit (Lexer.peek_char ⟨ach, arest⟩)) = true then
        (Token.Float (String.mk ip ++ "." ++
            String.mk (Lexer.readSeg is_digit
              (Lexer.read_char ⟨ach, arest⟩).ch
              (Lexer.read_char ⟨ach, arest⟩).rest).1),
          (Lexer.readSeg is_digit
            (Lexer.read_char ⟨ach, arest⟩).ch
            (Lexer.read_char ⟨ach, arest⟩).rest).2)
      else (Token.Int (String.mk ip), ⟨ach, arest⟩)).2.ch ∧
      (if (decide (ach = '.') &&
            is_digit (Lexer.peek_char ⟨ach, arest ++ suffix⟩)) = true then
        (Token.Float (String.mk ip ++ "." ++
            String.mk (Lexer.readSeg is_digit
              (Lexer.read_char ⟨ach, arest ++ suffix⟩).ch
              (Lexer.read_char ⟨ach, arest ++ suffix⟩).rest).1),
          (Lexer.readSeg is_digit
            (Lexer.read_char ⟨ach, arest ++ suffix⟩).ch
            (Lexer.read_char ⟨ach, arest ++ suffix⟩).rest).2)
      else (Token.Int (String.mk ip), ⟨ach, arest ++ suffix⟩)).2.rest =
      (if (decide (ach = '.') &&
            is_digit (Lexer.peek_char ⟨ach, arest⟩)) = true then
        (Token.Float (String.mk ip ++ "." ++
            String.mk (Lexer.readSeg is_digit
              (Lexer.read_char ⟨ach, arest⟩).ch
              (Lexer.read_char ⟨ach, arest⟩).rest).1),
          (Lexer.readSeg is_digit
            (Lexer.read_char ⟨ach, arest⟩).ch
            (Lexer.read_char ⟨ach, arest⟩).rest).2)
      else (Token.Int (String.mk ip), ⟨ach, arest⟩)).2.rest ++ suffix) ∨
    ((if (decide (ach = '.') &&
            is_digit (Lexer.peek_char ⟨ach, arest ++ suffix⟩)) = true then
        (Token.Float (String.mk ip ++ "." ++
            String.mk (Lexer.readSeg is_digit
              (Lexer.read_char ⟨ach, arest ++ suffix⟩).ch
              (Lexer.read_char ⟨ach, arest ++ suffix⟩).rest).1),
          (Lexer.readSeg is_digit
            (Lexer.read_char ⟨ach, arest ++ suffix⟩).ch
            (Lexer.read_char ⟨ach, arest ++ suffix⟩).rest).2)
      else (Token.Int (String.mk ip), ⟨ach, arest ++ suffix⟩)).1 =
      (if (decide (ach = '.') &&
            is_digit (Lexer.peek_char ⟨ach, arest⟩)) = true then
        (Token.Float (String.mk ip ++ "." ++
            String.mk (Lexer.readSeg is_digit
              (Lexer.read_char ⟨ach, arest⟩).ch
              (Lexer.read_char ⟨ach, arest⟩).rest).1),
          (Lexer.readSeg is_digit
            (Lexer.read_char ⟨ach, arest⟩).ch
            (Lexer.read_char ⟨ach, arest⟩).rest).2)
      else (Token.Int (String.mk ip), ⟨ach, arest⟩)).1 ∧
      DeadLex (if (decide (ach = '.') &&
            is_digit (Lexer.peek_char ⟨ach, arest⟩)) = true then
        (Token.Float (String.mk ip ++ "." ++
            String.mk (Lexer.readSeg is_digit
              (Lexer.read_char ⟨ach, arest⟩).ch
              (Lexer.read_char ⟨ach, arest⟩).rest).1),
          (Lexer.readSeg is_digit
            (Lexer.read_char ⟨ach, arest⟩).ch
            (Lexer.read_char ⟨ach, arest⟩).rest).2)
      else (Token.Int (String.mk ip), ⟨ach, arest⟩)).2) ∨
    (notPunct (if (decide (ach = '.') &&
            is_digit (Lexer.peek_char ⟨ach, arest⟩)) = true then
        (Token.Float (String.mk ip ++ "." ++
            String.mk (Lexer.readSeg is_digit
              (Lexer.read_char ⟨ach, arest⟩).ch
              (Lexer.read_char ⟨ach, arest⟩).rest).1),
          (Lexer.readSeg is_digit
            (Lexer.read_char ⟨ach, arest⟩).ch
            (Lexer.read_char ⟨ach, arest⟩).rest).2)
      else (Token.Int (String.mk ip), ⟨ach, arest⟩)).1 ∧
      DeadLex (if (decide (ach = '.') &&
            is_digit (Lexer.peek_char ⟨ach, arest⟩)) = true then
        (Token.Float (String.mk ip ++ "." ++
            String.mk (Lexer.readSeg is_digit
              (Lexer.read_char ⟨ach, arest⟩).ch
              (Lexer.read_char ⟨ach, arest⟩).rest).1),
          (Lexer.readSeg is_digit
            (Lexer.read_char ⟨ach, arest⟩).ch
            (Lexer.read_char ⟨ach, arest⟩).rest).2)
      else (Token.Int (String.mk ip), ⟨ach, arest⟩)).2) := by
  cases arest with
  | cons c cs =>
    simp only [Lexer.peek_char, List.cons_append, List.headD]
    by_cases hg : (decide (ach = '.') && is_digit c) = true
    · rw [if_pos hg, if_pos hg]
      simp only [Lexer.read_char]
      rcases readSeg_app cs is_digit c suffix with ⟨m1, m2, m3⟩ | mdead
      · have hb2 : (Lexer.readSeg is_digit c (cs ++ suffix)).2 =
            ⟨(Lexer.readSeg is_digit c cs).2.ch,
              (Lexer.readSeg is_digit c cs).2.rest ++ suffix⟩ :=
          lexer_eq_of _ _ m2 m3
        simp only [hb2, m1]
        exact Or.inl ⟨by trivial, by trivial, by trivial⟩
      · refine Or.inr (Or.inr ⟨by simp [notPunct], ?_⟩)
        rw [mdead]
        exact Or.inl rfl
    · rw [if_neg hg, if_neg hg]
      exact Or.inl ⟨by trivial, by trivial, by trivial⟩
  | nil =>
    simp only [Lexer.peek_char, List.nil_append, List.headD]
    by_cases hdot : ach = '.'
    · subst hdot
      refine Or.inr (Or.inr ⟨?_, ?_⟩)
      · simp [is_digit, notPunct]
      · simp [is_digit, DeadLex]
    · rw [if_neg (by simp [hdot]), if_neg (by simp [hdot])]
      exact Or.inl ⟨by trivial, by trivial, by trivial⟩

set_option maxHeartbeats 1000000 in
theorem tokenize_app (m : Lexer) (suffix : List Char) :
    ((Lexer.tokenize ⟨m.ch, m.rest ++ suffix⟩).1 = (Lexer.tokenize m).1 ∧
      (Lexer.tokenize ⟨m.ch, m.rest ++ suffix⟩).2.ch =
        (Lexer.tokenize m).2.ch ∧
      (Lexer.tokenize ⟨m.ch, m.rest ++ suffix⟩).2.rest =
        (Lexer.tokenize m).2.rest ++ suffix) ∨
    ((Lexer.tokenize ⟨m.ch, m.rest ++ suffix⟩).1 = (Lexer.tokenize m).1 ∧
      DeadLex (Lexer.tokenize m).2) ∨
    (notPunct (Lexer.tokenize m).1 ∧ DeadLex (Lexer.tokenize m).2) := by
  obtain ⟨ch, r⟩ := m
  dsimp only
  by_cases h1 : ch = '('
  · subst h1
    simp only [Lexer.tokenize, if_pos]
    rcases read_char_app '(' r suffix with ⟨h2, h3⟩ | ⟨hr, hdead⟩
    · exact Or.inl ⟨trivial, h2, h3⟩
    · exact Or.inr (Or.inl ⟨trivial, by rw [hdead]; exact Or.inl rfl⟩)
  by_cases h2 : ch = ')'
  · subst h2
    simp only [Lexer.tokenize, if_neg h1, if_pos]
    rcases read_char_app ')' r suffix with ⟨k2, k3⟩ | ⟨hr, hdead⟩
    · exact Or.inl ⟨trivial, k2, k3⟩
    · exact Or.inr (Or.inl ⟨trivial, by rw [hdead]; exact Or.inl rfl⟩)
  by_cases h3 : ch = ','
  · subst h3
    simp only [Lexer.tokenize, if_neg h1, if_neg h2, if_pos]
    rcases read_char_app ',' r suffix with ⟨k2, k3⟩ | ⟨hr, hdead⟩
    · exact Or.inl ⟨trivial, k2, k3⟩
    · exact Or.inr (Or.inl ⟨trivial, by rw [hdead]; exact Or.inl rfl⟩)
  by_cases h4 : ch = '+'
  · subst h4
    simp only [Lexer.tokenize, if_neg h1, if_neg h2, if_neg h3, if_pos]
    rcases read_char_app '+' r suffix with ⟨k2, k3⟩ | ⟨hr, hdead⟩
    · exact Or.inl ⟨trivial, k2, k3⟩
    · exact Or.inr (Or.inl ⟨trivial, by rw [hdead]; exact Or.inl rfl⟩)
  by_cases h5 : ch = '-'
  · subst h5
    simp only [Lexer.tokenize, if_neg h1, if_neg h2, if_neg h3, if_neg h4,
      if_pos]
    rcases read_char_app '-' r suffix with ⟨k2, k3⟩ | ⟨hr, hdead⟩
    · exact Or.inl ⟨trivial, k2, k3⟩
    · exact Or.inr (Or.inl ⟨trivial, by rw [hdead]; exact Or.inl rfl⟩)
  by_cases h6 : ch = '"'
  · subst h6
    simp only [Lexer.tokenize, if_neg h1, if_neg h2, if_neg h3, if_neg h4,
      if_neg h5, if_pos]
    rcases readStrAux_app r suffix with ⟨k1, k2, k3⟩ | kdead
    · have hb : (Lexer.readStrAux (r ++ suffix)).2 =
          ⟨(Lexer.readStrAux r).2.ch, (Lexer.readStrAux r).2.rest ++ suffix⟩ :=
        lexer_eq_of _ _ k2 k3
      rcases read_char_app (Lexer.readStrAux r).2.ch
        (Lexer.readStrAux r).2.rest suffix with ⟨m2, m3⟩ | ⟨hr, hdead⟩
      · refine Or.inl ⟨by rw [k1], ?_, ?_⟩
        · rw [hb]
          exact m2
        · rw [hb]
          exact m3
      · refine Or.inr (Or.inl ⟨by rw [k1], ?_⟩)
        exact Or.inl hdead
    · refine Or.inr (Or.inr ⟨by simp [notPunct], ?_⟩)
      rw [kdead]
      exact Or.inl rfl
  by_cases h7 : ch = '\x00'
  · subst h7
    simp only [Lexer.tokenize, if_neg h1, if_neg h2, if_neg h3, if_neg h4,
      if_neg h5, if_neg h6, if_pos]
    rcases read_char_app '\x00' r suffix with ⟨k2, k3⟩ | ⟨hr, hdead⟩
    · exact Or.inl ⟨trivial, k2, k3⟩
    · exact Or.inr (Or.inr ⟨by simp [notPunct], by rw [hdead]; exact Or.inl rfl⟩)
  by_cases h8 : is_letter ch = true
  · simp only [Lexer.tokenize, if_neg h1, if_neg h2, if_neg h3, if_neg h4,
      if_neg h5, if_neg h6, if_neg h7, if_pos h8]
    rcases read_identifier_app r ch suffix with ⟨k1, k2, k3⟩ | kdead
    · exact Or.inl ⟨by rw [k1], k2, k3⟩
    · exact Or.inr (Or.inr ⟨lookup_ident_not_punct _, Or.inl kdead⟩)
  by_cases h9 : is_digit ch = true
  · simp only [Lexer.tokenize, if_neg h1, if_neg h2, if_neg h3, if_neg h4,
      if_neg h5, if_neg h6, if_neg h7, if_neg h8, if_pos h9,
      Lexer.read_number]
    rcases readSeg_app r is_digit ch suffix with ⟨k1, k2, k3⟩ | kdead
    · have hb : (Lexer.readSeg is_digit ch (r ++ suffix)).2 =
          ⟨(Lexer.readSeg is_digit ch r).2.ch,
            (Lexer.readSeg is_digit ch r).2.rest ++ suffix⟩ :=
        lexer_eq_of _ _ k2 k3
      simp only [hb, k1]
      exact digit_tail_app (Lexer.readSeg is_digit ch r).1
        (Lexer.readSeg is_digit ch r).2.ch
        (Lexer.readSeg is_digit ch r).2.rest suffix
    · simp only [kdead]
      refine Or.inr (Or.inr ⟨?_, ?_⟩)
      · simp [Lexer.peek_char, is_digit, notPunct]
      · simp [Lexer.peek_char, is_digit, DeadLex]
  · simp only [Lexer.tokenize, if_neg h1, if_neg h2, if_neg h3, if_neg h4,
      if_neg h5, if_neg h6, if_neg h7, if_neg h8, if_neg h9]
    rcases read_char_app ch r suffix with ⟨k2, k3⟩ | ⟨hr, hdead⟩
    · exact Or.inl ⟨trivial, k2, k3⟩
    · exact Or.inr (Or.inr ⟨by simp [notPunct], by rw [hdead]; exact Or.inl rfl⟩)

/-- The trichotomy for a whole `next_token` step: appending a suffix either
commutes (token and state), or the token agrees and the short lexer is dead,
or the short lexer is dead and its token is not punctuation. -/
theorem next_token_app (l1 : Lexer) (suffix : List Char) :
    ((Lexer.next_token ⟨l1.ch, l1.rest ++ suffix⟩).1 = (l1.next_token).1 ∧
      (Lexer.next_token ⟨l1.ch, l1.rest ++ suffix⟩).2.ch =
        (l1.next_token).2.ch ∧
      (Lexer.next_token ⟨l1.ch, l1.rest ++ suffix⟩).2.rest =
        (l1.next_token).2.rest ++ suffix) ∨
    ((Lexer.next_token ⟨l1.ch, l1.rest ++ suffix⟩).1 = (l1.next_token).1 ∧
      DeadLex (l1.next_token).2) ∨
    (notPunct (l1.next_token).1 ∧ DeadLex (l1.next_token).2) := by
  rw [next_token_as_tokenize, next_token_as_tokenize]
  dsimp only
  rcases skipWS_app l1.rest l1.ch suffix with ⟨k1, k2⟩ | kdead
  · have hb : Lexer.skipWS l1.ch (l1.rest ++ suffix) =
        ⟨(Lexer.skipWS l1.ch l1.rest).ch,
          (Lexer.skipWS l1.ch l1.rest).rest ++ suffix⟩ :=
      lexer_eq_of _ _ k1 k2
    rw [hb]
    exact tokenize_app (Lexer.skipWS l1.ch l1.rest) suffix
  · rw [kdead]
    refine Or.inr (Or.inr ⟨?_, ?_⟩)
    · simp [Lexer.tokenize, Lexer.read_char, notPunct]
    · simp [Lexer.tokenize, Lexer.read_char, DeadLex]

/-- `Parser.next_token`, with the pair destructured. -/
theorem parser_next_def (p : Parser) :
    p.next_token = ⟨(p.lexer.next_token).2, p.peek_token,
      (p.lexer.next_token).1⟩ := by
  unfold Parser.next_token
  cases hx : p.lexer.next_token with
  | mk t l => rfl

/-- The simulation relation between the parser run on an input and the run
on the input extended by `suffix`: either the lexers are in lockstep with
the window tokens equal, or the short lexer is dead and the divergence has
reached (none, the peek token, or both window tokens), every token past the
divergence on the short side being non-punctuation. -/
inductive Sim (suffix : List Char) : Parser → Parser → Prop where
  | psync (l1 l2 : Lexer) (cur pk : Token) (hch : l2.ch = l1.ch)
      (hrest : l2.rest = l1.rest ++ suffix) :
      Sim suffix ⟨l1, cur, pk⟩ ⟨l2, cur, pk⟩
  | pdead0 (l1 l2 : Lexer) (cur pk : Token) (hd : DeadLex l1) :
      Sim suffix ⟨l1, cur, pk⟩ ⟨l2, cur, pk⟩
  | ppeekdiv (l1 l2 : Lexer) (cur pk1 pk2 : Token) (hd : DeadLex l1)
      (hp : notPunct pk1) :
      Sim suffix ⟨l1, cur, pk1⟩ ⟨l2, cur, pk2⟩
  | pbad (l1 l2 : Lexer) (cur1 cur2 pk1 pk2 : Token) (hd : DeadLex l1)
      (hc : notPunct cur1) (hp : notPunct pk1) :
      Sim suffix ⟨l1, cur1, pk1⟩ ⟨l2, cur2, pk2⟩

/-- The simulation is preserved by one `next_token` step of both runs. -/
theorem sim_next {suffix : List Char} {p1 p2 : Parser}
    (h : Sim suffix p1 p2) : Sim suffix p1.next_token p2.next_token := by
  cases h with
  | psync l1 l2 cur pk hch hrest =>
    have hl2 : l2 = ⟨l1.ch, l1.rest ++ suffix⟩ := lexer_eq_of _ _ hch hrest
    subst hl2
    rw [parser_next_def, parser_next_def]
    dsimp only
    rcases next_token_app l1 suffix with ⟨k1, k2, k3⟩ | ⟨k1, kd⟩ | ⟨knp, kd⟩
    · rw [k1]
      exact Sim.psync _ _ _ _ k2 k3
    · rw [k1]
      exact Sim.pdead0 _ _ _ _ kd
    · exact Sim.ppeekdiv _ _ _ _ _ kd knp
  | pdead0 l1 l2 cur pk hd =>
    rw [parser_next_def, parser_next_def]
    dsimp only
    obtain ⟨knp, kd⟩ := dead_next hd
    exact Sim.ppeekdiv _ _ _ _ _ kd knp
  | ppeekdiv l1 l2 cur pk1 pk2 hd hp =>
    rw [parser_next_def, parser_next_def]
    dsimp only
    obtain ⟨knp, kd⟩ := dead_next hd
    exact Sim.pbad _ _ _ _ _ _ kd hp knp
  | pbad l1 l2 cur1 cur2 pk1 pk2 hd hc hp =>
    rw [parser_next_def, parser_next_def]
    dsimp only
    obtain ⟨knp, kd⟩ := dead_next hd
    exact Sim.pbad _ _ _ _ _ _ kd hp knp

/-- A successful `expect_peek` is exactly an advance. -/
theorem expect_peek_ok {p : Parser} {t : Token} {mk : Token → ParserError}
    (h : p.peek_token = t) :
    Parser.expect_peek p t mk = (.ok (), p.next_token) := by
  simp [Parser.expect_peek, h]

/-- A failed `expect_peek` is exactly the typed error with no advance. -/
theorem expect_peek_err {p : Parser} {t : Token} {mk : Token → ParserError}
    (h : p.peek_token ≠ t) :
    Parser.expect_peek p t mk = (.error (mk p.peek_token), p) := by
  simp [Parser.expect_peek, h]

/-- Inversion: if `expect_peek` succeeded, the peek token matched and the
state advanced. -/
theorem expect_peek_inv {p p2 : Parser} {t : Token} {u : Unit}
    {mk : Token → ParserError}
    (h : Parser.expect_peek p t mk = (.ok u, p2)) :
    p.peek_token = t ∧ p2 = p.next_token := by
  by_cases hp : p.peek_token = t
  · rw [expect_peek_ok hp] at h
    exact ⟨hp, (congrArg Prod.snd h).symm⟩
  · rw [expect_peek_err hp] at h
    exact absurd (congrArg Prod.fst h) (by simp)

theorem parse_identifier_state (p : Parser) :
    (Parser.parse_identifier p).2 = p := rfl

/-- The result of `parse_identifier`, as a function of the current token. -/
def identValRes (t : Token) : PResult Value :=
  (show PResult String from
    match t with
    | Token.Ident ident => Except.ok ident
    | _ => Except.error (ParserError.ExpectedIdentifierToken t)).map
    Value.Identifier

theorem parse_identifier_eq (p : Parser) :
    Parser.parse_identifier p = (identValRes p.cur_token, p) := by
  unfold Parser.parse_identifier Parser.parse_identifier_string identValRes
  cases p.cur_token <;> rfl

/-- The result of `parse_integer_literal`, as a function of the token. -/
def intLitRes (t : Token) : PResult Value :=
  match t with
  | Token.Int int =>
    match parseI64 int with
    | some value => Except.ok (Value.IntegerLiteral value)
    | none => Except.error (ParserError.ParseInt int)
  | _ => Except.error (ParserError.ExpectedIntegerToken t)

theorem parse_integer_literal_eq (p : Parser) :
    Parser.parse_integer_literal p = (intLitRes p.cur_token, p) := by
  unfold Parser.parse_integer_literal intLitRes
  cases p.cur_token <;> try rfl
  case Int s => cases hpi : parseI64 s <;> simp [hpi]

/-- The result of `parse_float_literal`, as a function of the token. -/
def floatLitRes (t : Token) : PResult Value :=
  match t with
  | Token.Float float =>
    match parseF64 float with
    | some value => Except.ok (Value.FloatLiteral value)
    | none => Except.error (ParserError.ParseFloat float)
  | _ => Except.error (ParserError.ExpectedFloatToken t)

theorem parse_float_literal_eq (p : Parser) :
    Parser.parse_float_literal p = (floatLitRes p.cur_token, p) := by
  unfold Parser.parse_float_literal floatLitRes
  cases p.cur_token <;> try rfl
  case Float s => cases hpf : parseF64 s <;> simp [hpf]

/-- The result of `parse_string_literal`, as a function of the token. -/
def strLitRes (t : Token) : PResult Value :=
  match t with
  | Token.Str s => Except.ok (Value.StringLiteral s)
  | _ => Except.error (ParserError.ExpectedStringToken t)

theorem parse_string_literal_eq (p : Parser) :
    Parser.parse_string_literal p = (strLitRes p.cur_token, p) := by
  unfold Parser.parse_string_literal strLitRes
  cases p.cur_token <;> rfl

/-- The result of `parse_boolean`, as a function of the token. -/
def boolRes (t : Token) : PResult Value :=
  match t with
  | Token.True => Except.ok (Value.Boolean true)
  | Token.False => Except.ok (Value.Boolean false)
  | _ => Except.error (ParserError.ExpectedBooleanToken t)

theorem parse_boolean_eq (p : Parser) :
    Parser.parse_boolean p = (boolRes p.cur_token, p) := by
  unfold Parser.parse_boolean boolRes
  cases p.cur_token <;> rfl

/-- Whatever function `parse_value` chooses leaves the state untouched, and
both the choice and the function result depend only on the current token. -/
theorem parse_value_facts {p p2 : Parser}
    (hc : p.cur_token = p2.cur_token) :
    Parser.parse_value p = Parser.parse_value p2 ∧
    ∀ vf, Parser.parse_value p = some vf →
      (vf p).2 = p ∧ (vf p2).2 = p2 ∧ (vf p).1 = (vf p2).1 := by
  constructor
  · unfold Parser.parse_value
    rw [hc]
  · intro vf hvf
    unfold Parser.parse_value at hvf
    split at hvf
    · simp only [Option.some.injEq] at hvf
      subst hvf
      rw [parse_identifier_eq, parse_identifier_eq, hc]
      exact ⟨rfl, rfl, rfl⟩
    · simp only [Option.some.injEq] at hvf
      subst hvf
      rw [parse_integer_literal_eq, parse_integer_literal_eq, hc]
      exact ⟨rfl, rfl, rfl⟩
    · simp only [Option.some.injEq] at hvf
      subst hvf
      rw [parse_float_literal_eq, parse_float_literal_eq, hc]
      exact ⟨rfl, rfl, rfl⟩
    · simp only [Option.some.injEq] at hvf
      subst hvf
      rw [parse_string_literal_eq, parse_string_literal_eq, hc]
      exact ⟨rfl, rfl, rfl⟩
    · simp only [Option.some.injEq] at hvf
      subst hvf
      rw [parse_boolean_eq, parse_boolean_eq, hc]
      exact ⟨rfl, rfl, rfl⟩
    · simp only [Option.some.injEq] at hvf
      subst hvf
      rw [parse_boolean_eq, parse_boolean_eq, hc]
      exact ⟨rfl, rfl, rfl⟩
    · exact absurd hvf (by simp)

theorem prod_eq {α β : Type} (x : α × β) (a : α) (b : β) (h1 : x.1 = a)
    (h2 : x.2 = b) : x = (a, b) := by
  cases x
  simp_all

set_option maxHeartbeats 1000000 in
/-- Success inversion for `parse_filter`: the facts about the token window
that a successful run passed through. -/
theorem parse_filter_fwd {p : Parser} {q : Query}
    (h : (Parser.parse_filter p).1 = .ok q) :
    ∃ f idnet val vf,
      Parser.filterOf p.cur_token = some f ∧
      p.peek_token = .Lparen ∧
      (Parser.parse_identifier p.next_token.next_token).1 = .ok idnet ∧
      p.next_token.next_token.peek_token = .Comma ∧
      Parser.parse_value p.next_token.next_token.next_token.next_token =
        some vf ∧
      (vf p.next_token.next_token.next_token.next_token).1 = .ok val ∧
      p.next_token.next_token.next_token.next_token.peek_token = .Rparen := by
  unfold Parser.parse_filter at h
  split at h
  · simp at h
  rename_i f hf
  split at h
  · simp at h
  rename_i u p1 heq
  obtain ⟨hpk1, hp1⟩ := expect_peek_inv heq
  subst hp1
  try dsimp only at h
  split at h
  · simp at h
  rename_i idnet p3 heq2
  have hp3 : p3 = p.next_token.next_token := by
    have hst := parse_identifier_state p.next_token.next_token
    rw [heq2] at hst
    exact hst
  subst hp3
  split at h
  · simp at h
  rename_i u4 p4 heq4
  obtain ⟨hpk4, hp4⟩ := expect_peek_inv heq4
  subst hp4
  try dsimp only at h
  split at h
  · simp at h
  rename_i vf hvf
  split at h
  · simp at h
  rename_i val p6 heq6
  have hp6 : p6 = p.next_token.next_token.next_token.next_token := by
    have hst := ((@parse_value_facts p.next_token.next_token.next_token.next_token
      p.next_token.next_token.next_token.next_token rfl).2 vf hvf).1
    rw [heq6] at hst
    exact hst
  split at h
  · simp at h
  rename_i u7 p7 heq7
  have hpk7 := (expect_peek_inv heq7).1
  rw [hp6] at hpk7
  exact ⟨f, idnet, val, vf, hf, hpk1, by rw [heq2], hpk4, hvf,
    by rw [heq6], hpk7⟩

set_option maxHeartbeats 1000000 in
/-- Builder: the facts of `parse_filter_fwd` determine the whole run. -/
theorem parse_filter_build {p : Parser} {f : InfixOp} {idnet val : Value}
    {vf : Parser → PResult Value × Parser}
    (h1 : Parser.filterOf p.cur_token = some f)
    (h2 : p.peek_token = .Lparen)
    (h3 : (Parser.parse_identifier p.next_token.next_token).1 = .ok idnet)
    (h4 : p.next_token.next_token.peek_token = .Comma)
    (h5 : Parser.parse_value p.next_token.next_token.next_token.next_token =
      some vf)
    (h6 : (vf p.next_token.next_token.next_token.next_token).1 = .ok val)
    (h7 : p.next_token.next_token.next_token.next_token.peek_token =
      .Rparen) :
    Parser.parse_filter p = (.ok (.Filter f idnet val),
      p.next_token.next_token.next_token.next_token.next_token.next_token) := by
  have h6b : (vf p.next_token.next_token.next_token.next_token).2 =
      p.next_token.next_token.next_token.next_token :=
    ((parse_value_facts rfl).2 vf h5).1
  unfold Parser.parse_filter
  rw [h1]
  try dsimp only
  rw [expect_peek_ok h2]
  try dsimp only
  rw [prod_eq _ _ _ h3 (parse_identifier_state _)]
  try dsimp only
  rw [expect_peek_ok h4]
  try dsimp only
  rw [h5]
  try dsimp only
  rw [prod_eq _ _ _ h6 h6b]
  try dsimp only
  rw [expect_peek_ok h7]

/-- From any simulation state, either the two-token windows agree or the
short run's peek token is not punctuation. -/
theorem sim_window {suffix : List Char} {p1 p2 : Parser}
    (hs : Sim suffix p1 p2) :
    (p1.cur_token = p2.cur_token ∧ p1.peek_token = p2.peek_token) ∨
    notPunct p1.peek_token := by
  cases hs with
  | psync l1 l2 cur pk hch hrest => exact Or.inl ⟨rfl, rfl⟩
  | pdead0 l1 l2 cur pk hd => exact Or.inl ⟨rfl, rfl⟩
  | ppeekdiv l1 l2 cur pk1 pk2 hd hp => exact Or.inr hp
  | pbad l1 l2 cur1 cur2 pk1 pk2 hd hc hp => exact Or.inr hp

set_option maxHeartbeats 1000000 in
/-- A successful `parse_filter` on the short run forces the same success on
the extended run, and the simulation survives. -/
theorem sim_parse_filter {suffix : List Char} {p1 p2 : Parser} {q : Query}
    (hs : Sim suffix p1 p2)
    (h : (Parser.parse_filter p1).1 = .ok q) :
    (Parser.parse_filter p2).1 = .ok q ∧
      Sim suffix (Parser.parse_filter p1).2 (Parser.parse_filter p2).2 := by
  obtain ⟨f, idnet, val, vf, h1, h2, h3, h4, h5, h6, h7⟩ := parse_filter_fwd h
  rcases sim_window hs with ⟨e1, e2⟩ | hnp
  swap
  · exact absurd h2 hnp.1
  have hsa := sim_next (sim_next hs)
  rcases sim_window hsa with ⟨e1a, e2a⟩ | hnpa
  swap
  · exact absurd h4 hnpa.2.2
  have hsb := sim_next (sim_next hsa)
  rcases sim_window hsb with ⟨e1b, e2b⟩ | hnpb
  swap
  · exact absurd h7 hnpb.2.1
  have hvfacts := @parse_value_facts
    p1.next_token.next_token.next_token.next_token
    p2.next_token.next_token.next_token.next_token e1b
  have b1 : Parser.filterOf p2.cur_token = some f := by
    rw [← e1]
    exact h1
  have b2 : p2.peek_token = .Lparen := by
    rw [← e2]
    exact h2
  have b3 : (Parser.parse_identifier p2.next_token.next_token).1 =
      .ok idnet := by
    rw [parse_identifier_eq] at h3 ⊢
    dsimp only at h3 ⊢
    rw [← e1a]
    exact h3
  have b4 : p2.next_token.next_token.peek_token = .Comma := by
    rw [← e2a]
    exact h4
  have b5 : Parser.parse_value
      p2.next_token.next_token.next_token.next_token = some vf := by
    rw [← hvfacts.1]
    exact h5
  have b6 : (vf p2.next_token.next_token.next_token.next_token).1 =
      .ok val := by
    rw [← (hvfacts.2 vf h5).2.2]
    exact h6
  have b7 : p2.next_token.next_token.next_token.next_token.peek_token =
      .Rparen := by
    rw [← e2b]
    exact h7
  have hb1 := parse_filter_build h1 h2 h3 h4 h5 h6 h7
  have hb2 := parse_filter_build b1 b2 b3 b4 b5 b6 b7
  have hq : q = .Filter f idnet val := by
    rw [hb1] at h
    dsimp only at h
    exact (Except.ok.injEq _ _ ▸ h).symm
  subst hq
  refine ⟨by rw [hb2], ?_⟩
  rw [hb1, hb2]
  dsimp only
  exact sim_next (sim_next (sim_next (sim_next (sim_next (sim_next hs)))))

/-- From any simulation state, either the current tokens agree, or the
short run can be paired with any extended state at all (its window is
non-punctuation and its lexer dead). -/
theorem sim_cases2 {suffix : List Char} {p1 p2 : Parser}
    (hs : Sim suffix p1 p2) :
    p1.cur_token = p2.cur_token ∨
    ((∀ p2n, Sim suffix p1 p2n) ∧ notPunct p1.cur_token ∧
      notPunct p1.peek_token) := by
  cases hs with
  | psync l1 l2 cur pk hch hrest => exact Or.inl rfl
  | pdead0 l1 l2 cur pk hd => exact Or.inl rfl
  | ppeekdiv l1 l2 cur pk1 pk2 hd hp => exact Or.inl rfl
  | pbad l1 l2 cur1 cur2 pk1 pk2 hd hc hp =>
    refine Or.inr ⟨?_, hc, hp⟩
    intro p2n
    cases p2n with
    | mk l2n c2n pk2n => exact Sim.pbad l1 l2n cur1 c2n pk1 pk2n hd hc hp

/-- With a non-punctuation peek token, `parse_filter` always errors. -/
theorem parse_filter_peek_err {p : Parser} (hp : notPunct p.peek_token) :
    ∃ e, (Parser.parse_filter p).1 = .error e := by
  unfold Parser.parse_filter
  rcases hfo : Parser.filterOf p.cur_token with _ | f
  · exact ⟨_, rfl⟩
  · dsimp only
    rw [expect_peek_err hp.1]
    exact ⟨_, rfl⟩

/-- With a non-punctuation peek token, `parse_and` always errors. -/
theorem parse_and_peek_err {pq} {fuel : Nat} {p : Parser}
    (hp : notPunct p.peek_token) :
    Parser.parse_and pq fuel p =
      some (.error (.ExpectedLparen p.peek_token), p) := by
  unfold Parser.parse_and
  rw [expect_peek_err hp.1]

/-- With a non-punctuation peek token, `parse_or` always errors. -/
theorem parse_or_peek_err {pq} {fuel : Nat} {p : Parser}
    (hp : notPunct p.peek_token) :
    Parser.parse_or pq fuel p =
      some (.error (.ExpectedLparen p.peek_token), p) := by
  unfold Parser.parse_or
  rw [expect_peek_err hp.1]

/-- With a non-punctuation peek token, `parse_query` never succeeds. -/
theorem parse_query_bad {fuel : Nat} {p : Parser}
    {r : PResult Query × Parser} (hnp : notPunct p.peek_token)
    (h : Parser.parse_query fuel p = some r) : ∃ e, r.1 = .error e := by
  cases fuel with
  | zero => simp [Parser.parse_query] at h
  | succ f =>
    rw [Parser.parse_query] at h
    split at h
    · rw [parse_and_peek_err hnp] at h
      obtain rfl := Option.some.inj h
      exact ⟨_, rfl⟩
    · rw [parse_or_peek_err hnp] at h
      obtain rfl := Option.some.inj h
      exact ⟨_, rfl⟩
    · obtain ⟨e, he⟩ := parse_filter_peek_err hnp
      obtain rfl := Option.some.inj h
      exact ⟨e, he⟩

set_option maxHeartbeats 1000000 in
/-- The `and`/`or` child loop preserves the simulation: `Hok` is the
simulation property of the recursive `parse_query` call, `Herr` the fact
that it never succeeds from a non-punctuation peek token. -/
theorem sim_qloop {suffix : List Char}
    (pq : Parser → Option (PResult Query × Parser))
    (Hok : ∀ pa pb qq pax, Sim suffix pa pb → pq pa = some (.ok qq, pax) →
      ∃ pbx, pq pb = some (.ok qq, pbx) ∧ Sim suffix pax pbx)
    (Herr : ∀ pa r, notPunct pa.peek_token → pq pa = some r →
      ∃ e, r.1 = .error e) :
    ∀ (fuel : Nat) (p1 p2 : Parser) (acc qs : List Query) (p1x : Parser),
      Sim suffix p1 p2 →
      Parser.qloop pq fuel p1 acc = some (.ok qs, p1x) →
      ∃ p2x, Parser.qloop pq fuel p2 acc = some (.ok qs, p2x) ∧
        Sim suffix p1x p2x := by
  intro fuel
  induction fuel with
  | zero =>
    intro p1 p2 acc qs p1x hs h
    rw [Parser.qloop] at h
    split at h
    · rename_i hr
      simp only [Option.some.injEq, Prod.mk.injEq, Except.ok.injEq] at h
      obtain ⟨hq, hp⟩ := h
      subst hq
      subst hp
      rcases sim_cases2 hs with e1 | ⟨hall, hnc, hnp⟩
      · refine ⟨p2, ?_, hs⟩
        rw [Parser.qloop, if_pos (by rw [← e1]; exact hr)]
      · exact absurd hr hnc.2.1
    · simp at h
  | succ f IH =>
    intro p1 p2 acc qs p1x hs h
    rcases sim_cases2 hs with e1 | ⟨hall, hnc, hnp⟩
    · rw [Parser.qloop] at h
      split at h
      · rename_i hr
        simp only [Option.some.injEq, Prod.mk.injEq, Except.ok.injEq] at h
        obtain ⟨hq, hp⟩ := h
        subst hq
        subst hp
        refine ⟨p2, ?_, hs⟩
        rw [Parser.qloop, if_pos (by rw [← e1]; exact hr)]
      · rename_i hr
        dsimp only at h
        split at h
        · simp at h
        · simp at h
        rename_i q1 p1' hpq1
        obtain ⟨p2', hpq2, hs'⟩ := Hok _ _ _ _ hs hpq1
        rcases sim_cases2 hs' with e1' | ⟨hall', hnc', hnp'⟩
        · by_cases hcm : p1'.cur_token = .Comma
          · rw [if_pos hcm] at h
            obtain ⟨p2x, hrec, hsx⟩ := IH _ _ _ _ _ (sim_next hs') h
            refine ⟨p2x, ?_, hsx⟩
            rw [Parser.qloop, if_neg (by rw [← e1]; exact hr)]
            dsimp only
            rw [hpq2]
            dsimp only
            rw [if_pos (by rw [← e1']; exact hcm)]
            exact hrec
          · rw [if_neg hcm] at h
            obtain ⟨p2x, hrec, hsx⟩ := IH _ _ _ _ _ hs' h
            refine ⟨p2x, ?_, hsx⟩
            rw [Parser.qloop, if_neg (by rw [← e1]; exact hr)]
            dsimp only
            rw [hpq2]
            dsimp only
            rw [if_neg (by rw [← e1']; exact hcm)]
            exact hrec
        · rw [if_neg hnc'.2.2] at h
          obtain ⟨p2x, hrec, hsx⟩ := IH p1'
            (if p2'.cur_token = .Comma then p2'.next_token else p2') _ _ _
            (hall' _) h
          refine ⟨p2x, ?_, hsx⟩
          rw [Parser.qloop, if_neg (by rw [← e1]; exact hr)]
          dsimp only
          rw [hpq2]
          dsimp only
          exact hrec
    · rw [Parser.qloop, if_neg hnc.2.1] at h
      dsimp only at h
      split at h
      · simp at h
      · simp at h
      rename_i q1 p1' hpq1
      obtain ⟨e, he⟩ := Herr p1 _ hnp hpq1
      simp at he

set_option maxHeartbeats 1000000 in
/-- `parse_and` preserves the simulation. -/
theorem sim_parse_and {suffix : List Char}
    (pq : Parser → Option (PResult Query × Parser))
    (Hok : ∀ pa pb qq pax, Sim suffix pa pb → pq pa = some (.ok qq, pax) →
      ∃ pbx, pq pb = some (.ok qq, pbx) ∧ Sim suffix pax pbx)
    (Herr : ∀ pa r, notPunct pa.peek_token → pq pa = some r →
      ∃ e, r.1 = .error e)
    (fuel : Nat) {p1 p2 : Parser} {q : Query} {p1x : Parser}
    (hs : Sim suffix p1 p2)
    (h : Parser.parse_and pq fuel p1 = some (.ok q, p1x)) :
    ∃ p2x, Parser.parse_and pq fuel p2 = some (.ok q, p2x) ∧
      Sim suffix p1x p2x := by
  by_cases hpk : p1.peek_token = .Lparen
  swap
  · unfold Parser.parse_and at h
    rw [expect_peek_err hpk] at h
    simp at h
  · have hpk2 : p2.peek_token = .Lparen := by
      rcases sim_window hs with ⟨e1, e2⟩ | hnp
      · rw [← e2]
        exact hpk
      · exact absurd hpk hnp.1
    unfold Parser.parse_and at h ⊢
    rw [expect_peek_ok hpk] at h
    rw [expect_peek_ok hpk2]
    dsimp only at h ⊢
    split at h
    · simp at h
    · simp at h
    rename_i qs pl hql
    simp only [Option.some.injEq, Prod.mk.injEq, Except.ok.injEq] at h
    obtain ⟨hq, hp⟩ := h
    subst hq
    subst hp
    obtain ⟨p2l, hql2, hs'⟩ :=
      sim_qloop pq Hok Herr fuel _ _ _ _ _ (sim_next (sim_next hs)) hql
    rw [hql2]
    exact ⟨p2l.next_token, rfl, sim_next hs'⟩

set_option maxHeartbeats 1000000 in
/-- `parse_or` preserves the simulation. -/
theorem sim_parse_or {suffix : List Char}
    (pq : Parser → Option (PResult Query × Parser))
    (Hok : ∀ pa pb qq pax, Sim suffix pa pb → pq pa = some (.ok qq, pax) →
      ∃ pbx, pq pb = some (.ok qq, pbx) ∧ Sim suffix pax pbx)
    (Herr : ∀ pa r, notPunct pa.peek_token → pq pa = some r →
      ∃ e, r.1 = .error e)
    (fuel : Nat) {p1 p2 : Parser} {q : Query} {p1x : Parser}
    (hs : Sim suffix p1 p2)
    (h : Parser.parse_or pq fuel p1 = some (.ok q, p1x)) :
    ∃ p2x, Parser.parse_or pq fuel p2 = some (.ok q, p2x) ∧
      Sim suffix p1x p2x := by
  by_cases hpk : p1.peek_token = .Lparen
  swap
  · unfold Parser.parse_or at h
    rw [expect_peek_err hpk] at h
    simp at h
  · have hpk2 : p2.peek_token = .Lparen := by
      rcases sim_window hs with ⟨e1, e2⟩ | hnp
      · rw [← e2]
        exact hpk
      · exact absurd hpk hnp.1
    unfold Parser.parse_or at h ⊢
    rw [expect_peek_ok hpk] at h
    rw [expect_peek_ok hpk2]
    dsimp only at h ⊢
    split at h
    · simp at h
    · simp at h
    rename_i qs pl hql
    simp only [Option.some.injEq, Prod.mk.injEq, Except.ok.injEq] at h
    obtain ⟨hq, hp⟩ := h
    subst hq
    subst hp
    obtain ⟨p2l, hql2, hs'⟩ :=
      sim_qloop pq Hok Herr fuel _ _ _ _ _ (sim_next (sim_next hs)) hql
    rw [hql2]
    exact ⟨p2l.next_token, rfl, sim_next hs'⟩

set_option maxHeartbeats 1000000 in
/-- The central simulation theorem: a successful `parse_query` on the short
run forces the same result on the extended run. -/
theorem sim_parse_query {suffix : List Char} :
    ∀ (fuel : Nat) {p1 p2 : Parser} {q : Query} {p1x : Parser},
      Sim suffix p1 p2 → Parser.parse_query fuel p1 = some (.ok q, p1x) →
      ∃ p2x, Parser.parse_query fuel p2 = some (.ok q, p2x) ∧
        Sim suffix p1x p2x := by
  intro fuel
  induction fuel with
  | zero =>
    intro p1 p2 q p1x hs h
    simp [Parser.parse_query] at h
  | succ f IH =>
    intro p1 p2 q p1x hs h
    have Hok : ∀ pa pb qq pax, Sim suffix pa pb →
        Parser.parse_query f pa = some (.ok qq, pax) →
        ∃ pbx, Parser.parse_query f pb = some (.ok qq, pbx) ∧
          Sim suffix pax pbx :=
      fun pa pb qq pax hsx hx => IH hsx hx
    have Herr : ∀ pa r, notPunct pa.peek_token →
        Parser.parse_query f pa = some r → ∃ e, r.1 = .error e :=
      fun pa r hnp hx => parse_query_bad hnp hx
    rcases sim_cases2 hs with e1 | ⟨hall, hnc, hnp⟩
    swap
    · obtain ⟨e, he⟩ := parse_query_bad hnp h
      simp at he
    cases hcur : p1.cur_token
    case And =>
      rw [Parser.parse_query, hcur] at h
      dsimp only at h
      obtain ⟨p2x, h2, hs'⟩ := sim_parse_and _ Hok Herr f hs h
      refine ⟨p2x, ?_, hs'⟩
      rw [Parser.parse_query, ← e1, hcur]
      exact h2
    case Or =>
      rw [Parser.parse_query, hcur] at h
      dsimp only at h
      obtain ⟨p2x, h2, hs'⟩ := sim_parse_or _ Hok Herr f hs h
      refine ⟨p2x, ?_, hs'⟩
      rw [Parser.parse_query, ← e1, hcur]
      exact h2
    all_goals {
      rw [Parser.parse_query, hcur] at h
      dsimp only at h
      have hpair : Parser.parse_filter p1 = (.ok q, p1x) := Option.some.inj h
      have h1 : (Parser.parse_filter p1).1 = .ok q := by rw [hpair]
      obtain ⟨h2, hsim2⟩ := sim_parse_filter hs h1
      refine ⟨(Parser.parse_filter p2).2, ?_, ?_⟩
      · rw [Parser.parse_query, ← e1, hcur]
        dsimp only
        rw [prod_eq _ _ _ h2 rfl]
      · have hsnd : p1.parse_filter.2 = p1x := by rw [hpair]
        rw [← hsnd]
        exact hsim2 }

/-- The initial parser states of an input and of the input extended by a
suffix are in simulation. -/
theorem sim_init (input suffix : List Char) :
    Sim suffix (Parser.new (Lexer.new input))
      (Parser.new (Lexer.new (input ++ suffix))) := by
  cases input with
  | nil =>
    have h0 : Sim suffix (⟨Lexer.new [], .Illegal, .Illegal⟩ : Parser)
        ⟨Lexer.new ([] ++ suffix), .Illegal, .Illegal⟩ :=
      Sim.pdead0 _ _ _ _ (Or.inl rfl)
    exact sim_next (sim_next h0)
  | cons c cs =>
    have h0 : Sim suffix (⟨Lexer.new (c :: cs), .Illegal, .Illegal⟩ : Parser)
        ⟨Lexer.new ((c :: cs) ++ suffix), .Illegal, .Illegal⟩ :=
      Sim.psync ⟨c, cs⟩ ⟨c, cs ++ suffix⟩ .Illegal .Illegal rfl rfl
    exact sim_next (sim_next h0)

/-- C9: `parse_query` does not require end-of-input after a complete query.
If an input parses successfully, then the input followed by arbitrary
additional characters parses successfully to the same tree, the trailing
input being silently ignored. -/
theorem claim_C9 (input suffix : List Char) (fuel : Nat) (q : Query)
    (h : parseString input fuel = some (.ok q)) :
    parseString (input ++ suffix) fuel = some (.ok q) := by
  unfold parseString at h ⊢
  cases hq : Parser.parse_query fuel (Parser.new (Lexer.new input)) with
  | none =>
    rw [hq] at h
    simp at h
  | some rp =>
    rw [hq] at h
    rcases rp with ⟨res, p1x⟩
    have hres : res = .ok q := by simpa using h
    subst hres
    obtain ⟨p2x, h2, _⟩ := sim_parse_query fuel (sim_init input suffix) hq
    rw [h2]
    rfl

/-- Witness for C9: `eq(a,1)` parses, and stays the same tree when the
trailing garbage `))x` is appended. -/
theorem claim_C9_witness :
    parseString "eq(a,1)".toList 1 =
      some (.ok (.Filter .Eq (.Identifier "a") (.IntegerLiteral 1))) ∧
    parseString ("eq(a,1)".toList ++ "))x".toList) 1 =
      some (.ok (.Filter .Eq (.Identifier "a") (.IntegerLiteral 1))) :=
  ⟨rfl, claim_C9 "eq(a,1)".toList "))x".toList 1
    (.Filter .Eq (.Identifier "a") (.IntegerLiteral 1)) rfl⟩

end RQL
